import Mathlib

/-!
Shallow embedding of the block-level cache and I/O translation layer in
`src/lab/vtpc/lib/vtpc.c`, together with proofs about it.

Modelling conventions:

* Machine integers: `off_t`/`size_t` values that the code keeps non-negative
  (cursors, sizes, block indices, counts) are `Nat`; values that the code
  compares against `-1` (raw descriptors, the `fd` tag of a cache slot, the
  user-visible return values) are `Int`.  Byte values are `Nat` (the code only
  copies bytes, never computes with them, so no wrap-around is involved).
* The fixed pool of cache blocks (`static CacheBlock cache[1024]`), the open
  file table (`static FileContext open_files[128]`) and the per-descriptor
  backing files are total functions from `Nat`; only indices below the
  corresponding capacity are ever used by the code.
* The operating system is modelled explicitly: a backing file is a length plus
  a byte function (`RawFile`); `pread` returns `min count (len - off)` bytes
  (the short-read-at-EOF behaviour the code relies on); `pwrite` either
  transfers the full count, extending the file and zero-filling any hole, or
  fails.  Whether a given descriptor's reads/writes/fsync/close fail is decided
  by a read-only fault environment `IOEnv` (the code never retries, so a
  per-descriptor fault flag is enough to exercise every error branch).
  `fsync` is modelled as bumping a per-file barrier counter, `ftruncate` as
  setting the length (its result is ignored by the code).
* `init_cache` (lazy construction of the pool) is folded into the initial
  state: operations act on states in which the pool exists; allocation failure
  of `posix_memalign` is not modelled.  `vtpc_open` takes the raw descriptor
  chosen by the operating system as a parameter and reads the `fstat` size from
  the modelled file; failure of the raw `open`/`fstat` calls is not modelled.
* Two different raw descriptors are modelled as two different backing files
  (the claims under study never alias one file through two descriptors).
-/

def BLOCK_SIZE : Nat := 4096

def CACHE_SIZE_BLOCKS : Nat := 1024

def MAX_OPEN_FILES : Nat := 128

def SEEK_SET : Int := 0

def SEEK_CUR : Int := 1

def SEEK_END : Int := 2

def EBADF : Nat := 9

def EINVAL : Nat := 22

def EMFILE : Nat := 24

/-- One slot of the static cache pool (`CacheBlock` in the C source). -/
structure CacheBlock where
  data : Nat → Nat
  fd : Int
  block_index : Nat
  dirty : Bool
  frequency : Nat
  valid : Bool

/-- One slot of the open file table (`FileContext` in the C source). -/
structure FileContext where
  os_fd : Int
  current_offset : Nat
  file_size : Nat
  flags : Int

/-- A backing file as the operating system holds it: current length, byte
contents, and a counter of durability barriers (`fsync`) issued on it. -/
structure RawFile where
  len : Nat
  data : Nat → Nat
  syncCount : Nat

/-- Read-only fault environment: for each raw descriptor, whether its
`pread`s, `pwrite`s, `fsync`s and `close` fail. -/
structure IOEnv where
  readsFail : Nat → Bool
  writesFail : Nat → Bool
  syncFails : Nat → Bool
  closeFails : Nat → Bool

/-- The whole mutable state: the cache pool, the open file table, the backing
files, and the thread-global `errno`. -/
structure SysState where
  cache : Nat → CacheBlock
  openFiles : Nat → FileContext
  files : Nat → RawFile
  errno : Nat

/-- Pointwise update of a `Nat`-indexed table. -/
def updF {α : Type} (g : Nat → α) (i : Nat) (v : α) : Nat → α :=
  fun j => if j = i then v else g j

def setErrno (st : SysState) (e : Nat) : SysState :=
  { st with errno := e }

/-- The byte an OS-level read delivers at offset `o` (0 past end of file). -/
def storeByte (file : RawFile) (o : Nat) : Nat :=
  if o < file.len then file.data o else 0

/-- `pread(fd, buf, count, off)`: number of bytes delivered, or `none` for a
failing descriptor.  At most `count` bytes, short at end of file. -/
def preadLen (env : IOEnv) (fdN : Nat) (file : RawFile) (off count : Nat) :
    Option Nat :=
  if env.readsFail fdN = true then none else some (min count (file.len - off))

/-- `pwrite(fd, bytes, count, off)` (also `lseek`+`write` in `evict_block`):
full transfer extending the file (holes read back as zero), or failure. -/
def pwriteFile (env : IOEnv) (fdN : Nat) (file : RawFile) (off : Nat)
    (bytes : Nat → Nat) (count : Nat) : Option RawFile :=
  if env.writesFail fdN = true then none
  else some { file with
    len := max file.len (off + count),
    data := fun o =>
      if off ≤ o ∧ o < off + count then bytes (o - off)
      else if o < file.len then file.data o else 0 }

/-- `ftruncate(fd, sz)`; newly exposed bytes read back as zero. -/
def truncateFile (file : RawFile) (sz : Nat) : RawFile :=
  { file with
    len := sz,
    data := fun o => if o < min file.len sz then file.data o else 0 }

/-- The scan of `find_cache_block`: first slot (from `i`, `fuel` slots left)
that is valid and tagged with descriptor `f` and block index `bi`. -/
def findLoop (cache : Nat → CacheBlock) (f : Int) (bi : Nat) (i : Nat) :
    Nat → Option Nat
  | 0 => none
  | fuel + 1 =>
    if (cache i).valid = true ∧ (cache i).fd = f ∧ (cache i).block_index = bi
    then some i
    else findLoop cache f bi (i + 1) fuel

/-- `find_cache_block` from the C source (`none` models its `-1`). -/
def find_cache_block (st : SysState) (f : Int) (bi : Nat) : Option Nat :=
  findLoop st.cache f bi 0 CACHE_SIZE_BLOCKS

/-- The selection scan of `evict_block`: `Sum.inl i` models the early
`return i` on the first invalid slot; `Sum.inr cand` is the candidate (slot of
highest frequency so far, earliest wins ties) after the loop. -/
def evictScan (cache : Nat → CacheBlock) (i : Nat) (cand : Option Nat)
    (maxFreq : Nat) : Nat → Sum Nat (Option Nat)
  | 0 => Sum.inr cand
  | fuel + 1 =>
    if (cache i).valid = false then Sum.inl i
    else if cand = none ∨ maxFreq < (cache i).frequency then
      evictScan cache (i + 1) (some i) (cache i).frequency fuel
    else
      evictScan cache (i + 1) cand maxFreq fuel

/-- Marking a slot reusable, as the candidate branch of `evict_block` does. -/
def invalidateSlot (st : SysState) (c : Nat) : SysState :=
  { st with
    cache := updF st.cache c
      ({ st.cache c with valid := false, dirty := false, frequency := 0 }) }

/-- `evict_block` from the C source.  If the selected candidate is dirty its
contents are written back first; a failed or short write is only reported on
`stderr` (`perror`) and the eviction proceeds regardless.  The final
`Sum.inr none` arm models the trailing `return 0` fallback. -/
def evict_block (env : IOEnv) (st : SysState) : Nat × SysState :=
  match evictScan st.cache 0 none 0 CACHE_SIZE_BLOCKS with
  | Sum.inl i => (i, st)
  | Sum.inr (some c) =>
    let cb := st.cache c
    let st1 :=
      if cb.dirty = true then
        match pwriteFile env cb.fd.toNat (st.files cb.fd.toNat)
            (cb.block_index * BLOCK_SIZE) cb.data BLOCK_SIZE with
        | none => st
        | some file1 => { st with files := updF st.files cb.fd.toNat file1 }
      else st
    (c, invalidateSlot st1 c)
  | Sum.inr none => (0, st)

/-- Buffer contents after the miss `pread` of `r` bytes at `diskOff` plus the
`memset` zero fill of the remainder. -/
def populateFromStore (file : RawFile) (diskOff r : Nat) : Nat → Nat :=
  fun j => if j < r then file.data (diskOff + j) else 0

/-- The `memcpy` of a chunk of user bytes into a block buffer at `off`. -/
def blockWrite (d : Nat → Nat) (off : Nat) (bytes : List Nat) : Nat → Nat :=
  fun j =>
    if off ≤ j ∧ j < off + bytes.length then bytes.getD (j - off) 0 else d j

/-- The bytes `memcpy` copies out of a block buffer: `n` bytes from `off`. -/
def blockBytes (d : Nat → Nat) (off n : Nat) : List Nat :=
  (List.range n).map (fun j => d (off + j))

/-- Lookup-or-evict-and-populate step of the read path (`vtpc_read`'s loop
body up to the `memcpy`): on a miss the full block is fetched at
`block_idx * BLOCK_SIZE` and the tail beyond a short read is zero-filled; a
failing `pread` aborts (`Sum.inl` carries the state after the eviction). -/
def readLocate (env : IOEnv) (st : SysState) (f : Int) (blockIdx : Nat) :
    Sum SysState (Nat × SysState) :=
  match find_cache_block st f blockIdx with
  | some ci =>
    Sum.inr (ci, { st with
      cache := updF st.cache ci
        ({ st.cache ci with frequency := (st.cache ci).frequency + 1 }) })
  | none =>
    let p := evict_block env st
    let ci := p.fst
    let st1 := p.snd
    match preadLen env f.toNat (st1.files f.toNat) (blockIdx * BLOCK_SIZE)
        BLOCK_SIZE with
    | none => Sum.inl st1
    | some r =>
      Sum.inr (ci, { st1 with
        cache := updF st1.cache ci
          ({ data := populateFromStore (st1.files f.toNat)
              (blockIdx * BLOCK_SIZE) r,
             fd := f, block_index := blockIdx, dirty := false, frequency := 1,
             valid := true }) })

/-- The chunk loop of `vtpc_read`: `none` models the `return -1` on a failing
`pread`, otherwise the bytes copied to the user buffer are collected.  Every
chunk transfers at least one byte, so `remaining` bounds the number of
iterations; that bound is passed as structural fuel (`vtpc_read` supplies
`fuel = remaining`, which keeps `remaining ≤ fuel` at every call, so the
fuel-exhaustion arm is unreachable). -/
def readLoop (env : IOEnv) (st : SysState) (f : Int) (pos remaining fuel : Nat) :
    Option (List Nat) × SysState :=
  match remaining, fuel with
  | 0, _ => (some [], st)
  | _ + 1, 0 => (none, st)
  | rem + 1, fuel + 1 =>
    let toCopy := min (BLOCK_SIZE - pos % BLOCK_SIZE) (rem + 1)
    match readLocate env st f (pos / BLOCK_SIZE) with
    | Sum.inl st1 => (none, st1)
    | Sum.inr (ci, st1) =>
      let chunk := blockBytes ((st1.cache ci).data) (pos % BLOCK_SIZE) toCopy
      match readLoop env st1 f (pos + toCopy) (rem + 1 - toCopy) fuel with
      | (none, st2) => (none, st2)
      | (some rest, st2) => (some (chunk ++ rest), st2)

/-- Lookup-or-evict-and-populate step of the write path (`vtpc_write`'s loop
body up to the `memcpy`): a miss that does not cover the whole block reads the
block first (whole-block `memset` to zero if that `pread` fails, zero fill of
the tail of a short read); a full-block miss keeps the stale buffer, which the
following `memcpy` overwrites entirely. -/
def writeLocate (env : IOEnv) (st : SysState) (f : Int) (blockIdx toCopy : Nat) :
    Nat × SysState :=
  match find_cache_block st f blockIdx with
  | some ci =>
    (ci, { st with
      cache := updF st.cache ci
        ({ st.cache ci with frequency := (st.cache ci).frequency + 1 }) })
  | none =>
    let p := evict_block env st
    let ci := p.fst
    let st1 := p.snd
    let newData : Nat → Nat :=
      if toCopy < BLOCK_SIZE then
        match preadLen env f.toNat (st1.files f.toNat) (blockIdx * BLOCK_SIZE)
            BLOCK_SIZE with
        | none => fun _ => 0
        | some r =>
          populateFromStore (st1.files f.toNat) (blockIdx * BLOCK_SIZE) r
      else (st1.cache ci).data
    (ci, { st1 with
      cache := updF st1.cache ci
        ({ data := newData, fd := f, block_index := blockIdx, dirty := false,
           frequency := 1, valid := true }) })

/-- The chunk loop of `vtpc_write`: locate the block, `memcpy` the chunk in,
mark the slot dirty, continue.  This loop cannot fail.  As in `readLoop`,
every chunk consumes at least one byte of the request, so the request length
serves as structural fuel (`vtpc_write` supplies `fuel = bs.length`, keeping
`bs.length ≤ fuel` at every call; the fuel-exhaustion arm is unreachable). -/
def writeLoop (env : IOEnv) (st : SysState) (f : Int) (pos : Nat)
    (bs : List Nat) (fuel : Nat) : SysState :=
  match bs, fuel with
  | [], _ => st
  | _ :: _, 0 => st
  | b :: rest, fuel + 1 =>
    let toCopy := min (BLOCK_SIZE - pos % BLOCK_SIZE) (b :: rest).length
    let p := writeLocate env st f (pos / BLOCK_SIZE) toCopy
    let ci := p.fst
    let st1 := p.snd
    let st2 := { st1 with
      cache := updF st1.cache ci
        ({ st1.cache ci with
           data := blockWrite ((st1.cache ci).data) (pos % BLOCK_SIZE)
             ((b :: rest).take toCopy),
           dirty := true }) }
    writeLoop env st2 f (pos + toCopy) ((b :: rest).drop toCopy) fuel

/-- The handle allocation scan at the top of `vtpc_open`. -/
def findFreeHandle (table : Nat → FileContext) (i : Nat) : Nat → Option Nat
  | 0 => none
  | fuel + 1 =>
    if (table i).os_fd = -1 then some i else findFreeHandle table (i + 1) fuel

/-- `vtpc_open`: allocate the first free handle (or fail with `EMFILE`), open
the backing store (the raw descriptor `osFd` is the environment's choice) and
record its `fstat` size with cursor 0. -/
def vtpc_open (st : SysState) (osFd : Nat) (flags _mode : Int) :
    Int × SysState :=
  match findFreeHandle st.openFiles 0 MAX_OPEN_FILES with
  | none => (-1, setErrno st EMFILE)
  | some h =>
    ((h : Int), { st with
      openFiles := updF st.openFiles h
        ({ os_fd := (osFd : Int), current_offset := 0,
           file_size := (st.files osFd).len, flags := flags }) })

/-- The write-back scan of `vtpc_fsync`: flush every valid dirty block tagged
with `f`, clearing its dirty flag; `false` models the `return -1` on the first
failing `pwrite` (carrying the state reached so far). -/
def fsyncLoop (env : IOEnv) (st : SysState) (f : Int) (i : Nat) :
    Nat → Bool × SysState
  | 0 => (true, st)
  | fuel + 1 =>
    let cb := st.cache i
    if cb.valid = true ∧ cb.fd = f ∧ cb.dirty = true then
      match pwriteFile env f.toNat (st.files f.toNat)
          (cb.block_index * BLOCK_SIZE) cb.data BLOCK_SIZE with
      | none => (false, st)
      | some file1 =>
        fsyncLoop env
          { st with files := updF st.files f.toNat file1,
                    cache := updF st.cache i { cb with dirty := false } }
          f (i + 1) fuel
    else fsyncLoop env st f (i + 1) fuel

/-- `vtpc_fsync`: write back all dirty blocks of the handle's descriptor, then
issue the durability barrier, then reconcile the backing length with the
tracked size (`ftruncate`, result ignored). -/
def vtpc_fsync (env : IOEnv) (st : SysState) (fd : Int) : Int × SysState :=
  if fd < 0 ∨ (MAX_OPEN_FILES : Int) ≤ fd ∨
      (st.openFiles fd.toNat).os_fd = -1 then
    (-1, setErrno st EBADF)
  else
    let f := (st.openFiles fd.toNat).os_fd
    match fsyncLoop env st f 0 CACHE_SIZE_BLOCKS with
    | (false, st1) => (-1, st1)
    | (true, st1) =>
      if env.syncFails f.toNat = true then (-1, st1)
      else
        let st2 := { st1 with
          files := updF st1.files f.toNat
            ({ st1.files f.toNat with
               syncCount := (st1.files f.toNat).syncCount + 1 }) }
        let st3 := { st2 with
          files := updF st2.files f.toNat
            (truncateFile (st2.files f.toNat)
              (st2.openFiles fd.toNat).file_size) }
        (0, st3)

/-- `vtpc_close`: force write-back through `vtpc_fsync` (its result is
discarded by the C code), invalidate every slot of the descriptor, close the
raw descriptor (whose result is what `vtpc_close` returns) and free the handle
slot. -/
def vtpc_close (env : IOEnv) (st : SysState) (fd : Int) : Int × SysState :=
  if fd < 0 ∨ (MAX_OPEN_FILES : Int) ≤ fd ∨
      (st.openFiles fd.toNat).os_fd = -1 then
    (-1, setErrno st EBADF)
  else
    let f := (st.openFiles fd.toNat).os_fd
    let st1 := (vtpc_fsync env st fd).snd
    let st2 := { st1 with
      cache := fun i =>
        if i < CACHE_SIZE_BLOCKS ∧ (st1.cache i).valid = true ∧
            (st1.cache i).fd = f then
          { st1.cache i with valid := false, dirty := false }
        else st1.cache i }
    let res : Int := if env.closeFails f.toNat = true then -1 else 0
    let st3 := { st2 with
      openFiles := updF st2.openFiles fd.toNat
        ({ st2.openFiles fd.toNat with os_fd := -1 }) }
    (res, st3)

/-- `vtpc_read`: clamp the request against cursor and tracked size (cursor at
or past the tracked size gives a zero-length non-error result), walk the
clamped range in block chunks, advance the cursor by the bytes copied.  The
copied bytes are returned alongside the C return value. -/
def vtpc_read (env : IOEnv) (st : SysState) (fd : Int) (count : Nat) :
    Int × List Nat × SysState :=
  if fd < 0 ∨ (MAX_OPEN_FILES : Int) ≤ fd ∨
      (st.openFiles fd.toNat).os_fd = -1 then
    (-1, [], setErrno st EBADF)
  else
    let ctx := st.openFiles fd.toNat
    if ctx.file_size ≤ ctx.current_offset then (0, [], st)
    else
      let cnt := min count (ctx.file_size - ctx.current_offset)
      match readLoop env st ctx.os_fd ctx.current_offset cnt cnt with
      | (none, st1) => (-1, [], st1)
      | (some bytes, st1) =>
        ((bytes.length : Int), bytes,
          { st1 with
            openFiles := updF st1.openFiles fd.toNat
              ({ st1.openFiles fd.toNat with
                 current_offset :=
                   (st1.openFiles fd.toNat).current_offset
                     + bytes.length }) })

/-- `vtpc_write`: walk the request in block chunks from the cursor, advance
the cursor by the bytes written and raise the tracked size to the cursor if
the write extended the stream. -/
def vtpc_write (env : IOEnv) (st : SysState) (fd : Int) (bs : List Nat) :
    Int × SysState :=
  if fd < 0 ∨ (MAX_OPEN_FILES : Int) ≤ fd ∨
      (st.openFiles fd.toNat).os_fd = -1 then
    (-1, setErrno st EBADF)
  else
    let ctx := st.openFiles fd.toNat
    let st1 := writeLoop env st ctx.os_fd ctx.current_offset bs bs.length
    let st2 := { st1 with
      openFiles := updF st1.openFiles fd.toNat
        ({ st1.openFiles fd.toNat with
           current_offset := (st1.openFiles fd.toNat).current_offset
             + bs.length }) }
    let st3 :=
      if (st2.openFiles fd.toNat).file_size
          < (st2.openFiles fd.toNat).current_offset then
        { st2 with
          openFiles := updF st2.openFiles fd.toNat
            ({ st2.openFiles fd.toNat with
               file_size := (st2.openFiles fd.toNat).current_offset }) }
      else st2
    ((bs.length : Int), st3)

/-- `vtpc_lseek`: recompute the cursor from `SEEK_SET`/`SEEK_CUR`/`SEEK_END`,
rejecting unknown `whence` values and negative results with `EINVAL`. -/
def vtpc_lseek (st : SysState) (fd offset whence : Int) : Int × SysState :=
  if fd < 0 ∨ (MAX_OPEN_FILES : Int) ≤ fd ∨
      (st.openFiles fd.toNat).os_fd = -1 then
    (-1, setErrno st EBADF)
  else
    let ctx := st.openFiles fd.toNat
    let newOffset : Option Int :=
      if whence = SEEK_SET then some offset
      else if whence = SEEK_CUR then some ((ctx.current_offset : Int) + offset)
      else if whence = SEEK_END then some ((ctx.file_size : Int) + offset)
      else none
    match newOffset with
    | none => (-1, setErrno st EINVAL)
    | some no =>
      if no < 0 then (-1, setErrno st EINVAL)
      else (no, { st with
        openFiles := updF st.openFiles fd.toNat
          ({ ctx with current_offset := no.toNat }) })

/-! ## Basic facts about the table scans -/

set_option maxRecDepth 40000

/-- A pool slot currently holds block `bi` of descriptor `f`. -/
def cacheMatch (cache : Nat → CacheBlock) (i : Nat) (f : Int) (bi : Nat) :
    Prop :=
  (cache i).valid = true ∧ (cache i).fd = f ∧ (cache i).block_index = bi

instance (cache : Nat → CacheBlock) (i : Nat) (f : Int) (bi : Nat) :
    Decidable (cacheMatch cache i f bi) := by
  unfold cacheMatch; infer_instance

theorem findLoop_some {cache : Nat → CacheBlock} {f : Int} {bi : Nat} :
    ∀ {fuel i j : Nat}, findLoop cache f bi i fuel = some j →
      i ≤ j ∧ j < i + fuel ∧ cacheMatch cache j f bi := by
  intro fuel
  induction fuel with
  | zero => intro i j h; simp [findLoop] at h
  | succ fuel ih =>
    intro i j h
    simp only [findLoop] at h
    split at h
    · rename_i hm
      cases h
      exact ⟨Nat.le_refl _, by omega, hm⟩
    · have := ih h
      exact ⟨by omega, by omega, this.2.2⟩

theorem findLoop_none {cache : Nat → CacheBlock} {f : Int} {bi : Nat} :
    ∀ {fuel i : Nat}, findLoop cache f bi i fuel = none →
      ∀ j, i ≤ j → j < i + fuel → ¬cacheMatch cache j f bi := by
  intro fuel
  induction fuel with
  | zero => intro i _ j h1 h2; omega
  | succ fuel ih =>
    intro i h j h1 h2
    simp only [findLoop] at h
    split at h
    · cases h
    · rename_i hm
      rcases Nat.eq_or_lt_of_le h1 with rfl | hlt
      · exact hm
      · exact ih h j hlt (by omega)

theorem evictScan_inl {cache : Nat → CacheBlock} :
    ∀ {fuel i : Nat} {cand : Option Nat} {maxFreq j : Nat},
      evictScan cache i cand maxFreq fuel = Sum.inl j →
      i ≤ j ∧ j < i + fuel ∧ (cache j).valid = false ∧
        (∀ k, i ≤ k → k < j → (cache k).valid = true) := by
  intro fuel
  induction fuel with
  | zero => intro i cand maxFreq j h; simp [evictScan] at h
  | succ fuel ih =>
    intro i cand maxFreq j h
    simp only [evictScan] at h
    split at h
    · cases h
      rename_i hv
      exact ⟨Nat.le_refl _, by omega, hv, fun k hk1 hk2 => by omega⟩
    · rename_i hv
      have hvi : (cache i).valid = true := by
        revert hv; cases (cache i).valid <;> simp
      split at h
      · have := ih h
        refine ⟨by omega, by omega, this.2.2.1, ?_⟩
        intro k hk1 hk2
        rcases Nat.eq_or_lt_of_le hk1 with rfl | hlt
        · exact hvi
        · exact this.2.2.2 k hlt hk2
      · have := ih h
        refine ⟨by omega, by omega, this.2.2.1, ?_⟩
        intro k hk1 hk2
        rcases Nat.eq_or_lt_of_le hk1 with rfl | hlt
        · exact hvi
        · exact this.2.2.2 k hlt hk2

theorem evictScan_first_invalid {cache : Nat → CacheBlock} :
    ∀ {fuel i : Nat} {cand : Option Nat} {maxFreq j : Nat},
      i ≤ j → j < i + fuel → (cache j).valid = false →
      (∀ k, i ≤ k → k < j → (cache k).valid = true) →
      evictScan cache i cand maxFreq fuel = Sum.inl j := by
  intro fuel
  induction fuel with
  | zero => intro i cand maxFreq j h1 h2; omega
  | succ fuel ih =>
    intro i cand maxFreq j h1 h2 h3 h4
    simp only [evictScan]
    rcases Nat.eq_or_lt_of_le h1 with rfl | hlt
    · simp [h3]
    · have hvi : (cache i).valid = true := h4 i (Nat.le_refl _) hlt
      rw [hvi]
      simp only [Bool.true_eq_false, if_false]
      split
      · exact ih hlt (by omega) h3 (fun k hk1 hk2 => h4 k (by omega) hk2)
      · exact ih hlt (by omega) h3 (fun k hk1 hk2 => h4 k (by omega) hk2)

theorem evictScan_inr_some {cache : Nat → CacheBlock} :
    ∀ {fuel i : Nat} {cand : Option Nat} {maxFreq d : Nat},
      evictScan cache i cand maxFreq fuel = Sum.inr (some d) →
      cand = some d ∨ (i ≤ d ∧ d < i + fuel ∧ (cache d).valid = true) := by
  intro fuel
  induction fuel with
  | zero => intro i cand maxFreq d h; simp only [evictScan] at h; cases h; left; rfl
  | succ fuel ih =>
    intro i cand maxFreq d h
    simp only [evictScan] at h
    split at h
    · cases h
    · rename_i hv
      have hvi : (cache i).valid = true := by
        revert hv; cases (cache i).valid <;> simp
      split at h
      · rcases ih h with hc | hr
        · cases hc; right; exact ⟨Nat.le_refl _, by omega, hvi⟩
        · right; exact ⟨by omega, by omega, hr.2.2⟩
      · rcases ih h with hc | hr
        · left; exact hc
        · right; exact ⟨by omega, by omega, hr.2.2⟩

theorem evictScan_ne_inr_none {cache : Nat → CacheBlock} :
    ∀ {fuel i : Nat} {c maxFreq : Nat},
      evictScan cache i (some c) maxFreq fuel ≠ Sum.inr none := by
  intro fuel
  induction fuel with
  | zero => intro i c maxFreq h; simp [evictScan] at h
  | succ fuel ih =>
    intro i c maxFreq h
    simp only [evictScan] at h
    split at h
    · cases h
    · split at h
      · exact ih h
      · exact ih h

theorem evictScan_max {cache : Nat → CacheBlock} :
    ∀ (fuel i c : Nat),
      (∀ k, k < fuel → (cache (i + k)).valid = true) → c < i →
      ∃ d, evictScan cache i (some c) (cache c).frequency fuel
            = Sum.inr (some d) ∧
        (d = c ∨ (i ≤ d ∧ d < i + fuel)) ∧
        (cache c).frequency ≤ (cache d).frequency ∧
        (∀ k, k < fuel → (cache (i + k)).frequency ≤ (cache d).frequency) ∧
        (d ≠ c → (cache c).frequency < (cache d).frequency) ∧
        (∀ k, k < fuel → i + k < d →
          (cache (i + k)).frequency < (cache d).frequency) := by
  intro fuel
  induction fuel with
  | zero =>
    intro i c _ _
    refine ⟨c, by simp [evictScan], Or.inl rfl, Nat.le_refl _, ?_, ?_, ?_⟩
    · intro k hk; omega
    · intro h; exact absurd rfl h
    · intro k hk; omega
  | succ fuel ih =>
    intro i c hvalid hci
    have hvi : (cache i).valid = true := by
      have := hvalid 0 (by omega)
      simpa using this
    simp only [evictScan, hvi]
    simp only [Bool.true_eq_false, if_false]
    by_cases hf : (cache c).frequency < (cache i).frequency
    · rw [if_pos (Or.inr hf)]
      obtain ⟨d, hd, hmem, hge, hall, hne, hfirst⟩ :=
        ih (i + 1) i (fun k hk => by
          have := hvalid (k + 1) (by omega)
          simpa [Nat.add_assoc, Nat.add_comm 1 k] using this) (by omega)
      refine ⟨d, hd, ?_, ?_, ?_, ?_, ?_⟩
      · rcases hmem with rfl | hr
        · right; omega
        · right; omega
      · omega
      · intro k hk
        match k with
        | 0 => simpa using hge
        | k + 1 =>
          have := hall k (by omega)
          rw [show i + (k + 1) = i + 1 + k by omega]
          exact this
      · intro _; omega
      · intro k hk hkd
        match k with
        | 0 =>
          simp only [Nat.add_zero] at hkd
          have : d ≠ i := by omega
          simpa using hne this
        | k + 1 =>
          have := hfirst k (by omega) (by omega)
          rw [show i + (k + 1) = i + 1 + k by omega]
          exact this
    · rw [if_neg (by simp; omega)]
      obtain ⟨d, hd, hmem, hge, hall, hne, hfirst⟩ :=
        ih (i + 1) c (fun k hk => by
          have := hvalid (k + 1) (by omega)
          simpa [Nat.add_assoc, Nat.add_comm 1 k] using this) (by omega)
      refine ⟨d, hd, ?_, hge, ?_, hne, ?_⟩
      · rcases hmem with rfl | hr
        · left; rfl
        · right; omega
      · intro k hk
        match k with
        | 0 => simp only [Nat.add_zero]; omega
        | k + 1 =>
          have := hall k (by omega)
          rw [show i + (k + 1) = i + 1 + k by omega]
          exact this
      · intro k hk hkd
        match k with
        | 0 =>
          simp only [Nat.add_zero] at hkd ⊢
          have hdc : d ≠ c := by omega
          have := hne hdc
          omega
        | k + 1 =>
          have := hfirst k (by omega) (by omega)
          rw [show i + (k + 1) = i + 1 + k by omega]
          exact this

theorem evictScan_succ (cache : Nat → CacheBlock) (i : Nat)
    (cand : Option Nat) (maxFreq fuel : Nat) :
    evictScan cache i cand maxFreq (fuel + 1) =
      if (cache i).valid = false then Sum.inl i
      else if cand = none ∨ maxFreq < (cache i).frequency then
        evictScan cache (i + 1) (some i) (cache i).frequency fuel
      else evictScan cache (i + 1) cand maxFreq fuel := rfl

theorem evictScan_top_ne_none (cache : Nat → CacheBlock) :
    evictScan cache 0 none 0 CACHE_SIZE_BLOCKS ≠ Sum.inr none := by
  have h : CACHE_SIZE_BLOCKS = 1023 + 1 := rfl
  rw [h, evictScan_succ]
  split
  · intro hc; cases hc
  · split
    · exact evictScan_ne_inr_none
    · rename_i hcond
      exact absurd (Or.inl rfl) hcond

theorem evictScan_top_all_valid (cache : Nat → CacheBlock)
    (hv : ∀ k, k < CACHE_SIZE_BLOCKS → (cache k).valid = true) :
    ∃ d, evictScan cache 0 none 0 CACHE_SIZE_BLOCKS = Sum.inr (some d) ∧
      d < CACHE_SIZE_BLOCKS ∧
      (∀ j, j < CACHE_SIZE_BLOCKS →
        (cache j).frequency ≤ (cache d).frequency) ∧
      (∀ j, j < d → (cache j).frequency < (cache d).frequency) := by
  have hN : CACHE_SIZE_BLOCKS = 1023 + 1 := rfl
  have hv0 : (cache 0).valid = true := hv 0 (by rw [hN]; omega)
  obtain ⟨d, hd, hmem, hge, hall, hne, hfirst⟩ :=
    evictScan_max 1023 1 0
      (fun k hk => hv (1 + k) (by rw [hN]; omega)) (by omega)
  refine ⟨d, ?_, ?_, ?_, ?_⟩
  · rw [hN, evictScan_succ, hv0]
    simp only [Bool.true_eq_false, if_false]
    rw [if_pos (Or.inl trivial)]
    exact hd
  · rw [hN]; rcases hmem with rfl | hr
    · omega
    · omega
  · intro j hj
    match j with
    | 0 => exact hge
    | j + 1 =>
      have := hall j (by rw [hN] at hj; omega)
      rw [show 1 + j = j + 1 by omega] at this
      exact this
  · intro j hj
    match j with
    | 0 =>
      have hdz : d ≠ 0 := by omega
      exact hne hdz
    | j + 1 =>
      have hjbound : j < 1023 := by
        rcases hmem with rfl | hr
        · omega
        · omega
      have := hfirst j hjbound (by omega)
      rw [show 1 + j = j + 1 by omega] at this
      exact this

theorem evict_block_fst_lt (env : IOEnv) (st : SysState) :
    (evict_block env st).fst < CACHE_SIZE_BLOCKS := by
  unfold evict_block
  cases h : evictScan st.cache 0 none 0 CACHE_SIZE_BLOCKS with
  | inl j =>
    have hc := evictScan_inl h
    show j < CACHE_SIZE_BLOCKS
    omega
  | inr o =>
    cases o with
    | none =>
      show (0 : Nat) < CACHE_SIZE_BLOCKS
      decide
    | some c =>
      have hc := evictScan_inr_some h
      rcases hc with hc | hr
      · cases hc
      · show c < CACHE_SIZE_BLOCKS
        omega

theorem evict_block_first_invalid (env : IOEnv) (st : SysState) (j : Nat)
    (hj : j < CACHE_SIZE_BLOCKS) (hinv : (st.cache j).valid = false)
    (hbefore : ∀ k, k < j → (st.cache k).valid = true) :
    evict_block env st = (j, st) := by
  have h : evictScan st.cache 0 none 0 CACHE_SIZE_BLOCKS = Sum.inl j :=
    evictScan_first_invalid (Nat.zero_le j) (by omega) hinv
      (fun k _ hk2 => hbefore k hk2)
  unfold evict_block
  rw [h]

/-! ## Concrete states used to exercise the theorems -/

def emptyBlock : CacheBlock :=
  { data := fun _ => 0, fd := -1, block_index := 0, dirty := false,
    frequency := 0, valid := false }

def emptyFile : RawFile := { len := 0, data := fun _ => 0, syncCount := 0 }

def freeCtx : FileContext :=
  { os_fd := -1, current_offset := 0, file_size := 0, flags := 0 }

def noFaults : IOEnv :=
  { readsFail := fun _ => false, writesFail := fun _ => false,
    syncFails := fun _ => false, closeFails := fun _ => false }

def baseState : SysState :=
  { cache := fun _ => emptyBlock, openFiles := fun _ => freeCtx,
    files := fun _ => emptyFile, errno := 0 }

/-- Handle 0 open on raw descriptor 0, cursor 0, tracked size 0. -/
def stOneOpen : SysState :=
  { baseState with
    openFiles := updF baseState.openFiles 0
      ({ os_fd := 0, current_offset := 0, file_size := 0, flags := 0 }) }

/-! ## Claims C5, C9, C10 -/

/-- Claim C5: on a cache miss, eviction selection returns the first invalid
pool slot when any slot is invalid (with no write-back and no state change at
all); when all slots are valid it selects the slot with the highest access
counter, ties broken in favour of the lowest-indexed slot. -/
theorem evict_selection_policy (env : IOEnv) (st : SysState) :
    (∀ j, j < CACHE_SIZE_BLOCKS → (st.cache j).valid = false →
      (∀ k, k < j → (st.cache k).valid = true) →
      evict_block env st = (j, st)) ∧
    ((∀ j, j < CACHE_SIZE_BLOCKS → (st.cache j).valid = true) →
      (evict_block env st).fst < CACHE_SIZE_BLOCKS ∧
      (∀ j, j < CACHE_SIZE_BLOCKS →
        (st.cache j).frequency ≤ (st.cache (evict_block env st).fst).frequency) ∧
      (∀ j, j < (evict_block env st).fst →
        (st.cache j).frequency < (st.cache (evict_block env st).fst).frequency)) := by
  constructor
  · intro j hj hinv hbefore
    exact evict_block_first_invalid env st j hj hinv hbefore
  · intro hv
    obtain ⟨d, hd, hlt, hmax, hfirst⟩ := evictScan_top_all_valid st.cache hv
    have hfst : (evict_block env st).fst = d := by
      unfold evict_block
      rw [hd]
    rw [hfst]
    exact ⟨hlt, hmax, hfirst⟩

/-- Witness for C5: in the all-invalid base pool the first slot is chosen
without state change, and in a fully valid pool the highest-frequency slot
(slot 2 below) is chosen. -/
theorem evict_selection_policy_witness :
    evict_block noFaults baseState = (0, baseState) :=
  (evict_selection_policy noFaults baseState).1 0 (by decide) rfl
    (fun k hk => absurd hk (Nat.not_lt_zero k))

/-- Claim C9: `evict_block` always returns a slot index below
`CACHE_SIZE_BLOCKS`; with an invalid slot present it returns the first such
index; and the selection scan never produces an empty candidate, so the
trailing `return 0` fallback is unreachable. -/
theorem evict_block_index_in_range (env : IOEnv) (st : SysState) :
    (evict_block env st).fst < CACHE_SIZE_BLOCKS ∧
    (∀ j, j < CACHE_SIZE_BLOCKS → (st.cache j).valid = false →
      (∀ k, k < j → (st.cache k).valid = true) →
      (evict_block env st).fst = j) ∧
    evictScan st.cache 0 none 0 CACHE_SIZE_BLOCKS ≠ Sum.inr none := by
  refine ⟨evict_block_fst_lt env st, ?_, evictScan_top_ne_none st.cache⟩
  intro j hj hinv hbefore
  rw [evict_block_first_invalid env st j hj hinv hbefore]

/-- Witness for C9 at a concrete state. -/
theorem evict_block_index_in_range_witness :
    (evict_block noFaults baseState).fst < CACHE_SIZE_BLOCKS ∧
    (evict_block noFaults baseState).fst = 0 :=
  ⟨(evict_block_index_in_range noFaults baseState).1,
   (evict_block_index_in_range noFaults baseState).2.1 0 (by decide) rfl
     (fun k hk => absurd hk (Nat.not_lt_zero k))⟩

/-- Claim C10: whenever `vtpc_lseek` returns -1 (bad handle; unknown `whence`,
which fails with `EINVAL`; or a negative resulting offset) the open file
table, the cache pool and the backing files are unchanged; the cursor is
written only on the success path, where the new state is exactly the old one
with the handle's cursor replaced. -/
theorem lseek_failure_preserves_state (st : SysState) (fd offset whence : Int) :
    ((vtpc_lseek st fd offset whence).fst = -1 →
      (vtpc_lseek st fd offset whence).snd.cache = st.cache ∧
      (vtpc_lseek st fd offset whence).snd.openFiles = st.openFiles ∧
      (vtpc_lseek st fd offset whence).snd.files = st.files) ∧
    (¬(fd < 0 ∨ (MAX_OPEN_FILES : Int) ≤ fd ∨
        (st.openFiles fd.toNat).os_fd = -1) →
      whence ≠ SEEK_SET → whence ≠ SEEK_CUR → whence ≠ SEEK_END →
      (vtpc_lseek st fd offset whence).fst = -1 ∧
      (vtpc_lseek st fd offset whence).snd.errno = EINVAL) ∧
    ((vtpc_lseek st fd offset whence).fst ≠ -1 →
      0 ≤ (vtpc_lseek st fd offset whence).fst ∧
      (vtpc_lseek st fd offset whence).snd = { st with
        openFiles := updF st.openFiles fd.toNat
          ({ st.openFiles fd.toNat with
             current_offset := (vtpc_lseek st fd offset whence).fst.toNat }) }) := by
  by_cases h1 : fd < 0 ∨ (MAX_OPEN_FILES : Int) ≤ fd ∨
      (st.openFiles fd.toNat).os_fd = -1
  · refine ⟨?_, ?_, ?_⟩
    · intro _
      simp [vtpc_lseek, h1, setErrno]
    · intro hc
      exact absurd h1 hc
    · intro hne
      exfalso
      apply hne
      simp [vtpc_lseek, h1]
  · by_cases hS : whence = SEEK_SET
    · subst hS
      by_cases hneg : offset < 0
      · refine ⟨?_, ?_, ?_⟩
        · intro _
          simp [vtpc_lseek, h1, hneg, setErrno]
        · intro _ hne
          exact absurd rfl hne
        · intro hne
          exfalso
          apply hne
          simp [vtpc_lseek, h1, hneg]
      · have hfst : (vtpc_lseek st fd offset SEEK_SET).fst = offset := by
          simp [vtpc_lseek, h1, hneg]
        refine ⟨?_, ?_, ?_⟩
        · intro hm1
          exfalso
          rw [hfst] at hm1
          omega
        · intro _ hne
          exact absurd rfl hne
        · intro _
          refine ⟨by rw [hfst]; omega, ?_⟩
          rw [hfst]
          simp [vtpc_lseek, h1, hneg]
    · by_cases hC : whence = SEEK_CUR
      · subst hC
        set no : Int := ((st.openFiles fd.toNat).current_offset : Int) + offset with hno
        by_cases hneg : no < 0
        · refine ⟨?_, ?_, ?_⟩
          · intro _
            simp [vtpc_lseek, SEEK_CUR, SEEK_SET, h1, ← hno, hneg, setErrno]
          · intro _ _ hne
            exact absurd rfl hne
          · intro hne
            exfalso
            apply hne
            simp [vtpc_lseek, SEEK_CUR, SEEK_SET, h1, ← hno, hneg]
        · have hfst : (vtpc_lseek st fd offset SEEK_CUR).fst = no := by
            simp [vtpc_lseek, SEEK_CUR, SEEK_SET, h1, ← hno, hneg]
          refine ⟨?_, ?_, ?_⟩
          · intro hm1
            exfalso
            rw [hfst] at hm1
            omega
          · intro _ _ hne
            exact absurd rfl hne
          · intro _
            refine ⟨by rw [hfst]; omega, ?_⟩
            rw [hfst]
            simp [vtpc_lseek, SEEK_CUR, SEEK_SET, h1, ← hno, hneg]
      · by_cases hE : whence = SEEK_END
        · subst hE
          set no : Int := ((st.openFiles fd.toNat).file_size : Int) + offset
            with hno
          by_cases hneg : no < 0
          · refine ⟨?_, ?_, ?_⟩
            · intro _
              simp [vtpc_lseek, SEEK_END, SEEK_CUR, SEEK_SET, h1, ← hno, hneg,
                setErrno]
            · intro _ _ _ hne
              exact absurd rfl hne
            · intro hne
              exfalso
              apply hne
              simp [vtpc_lseek, SEEK_END, SEEK_CUR, SEEK_SET, h1, ← hno, hneg]
          · have hfst : (vtpc_lseek st fd offset SEEK_END).fst = no := by
              simp [vtpc_lseek, SEEK_END, SEEK_CUR, SEEK_SET, h1, ← hno, hneg]
            refine ⟨?_, ?_, ?_⟩
            · intro hm1
              exfalso
              rw [hfst] at hm1
              omega
            · intro _ _ _ hne
              exact absurd rfl hne
            · intro _
              refine ⟨by rw [hfst]; omega, ?_⟩
              rw [hfst]
              simp [vtpc_lseek, SEEK_END, SEEK_CUR, SEEK_SET, h1, ← hno, hneg]
        · refine ⟨?_, ?_, ?_⟩
          · intro _
            simp [vtpc_lseek, h1, hS, hC, hE, setErrno]
          · intro _ _ _ _
            constructor
            · simp [vtpc_lseek, h1, hS, hC, hE]
            · simp [vtpc_lseek, h1, hS, hC, hE, setErrno]
          · intro hne
            exfalso
            apply hne
            simp [vtpc_lseek, h1, hS, hC, hE]

/-- Witness for C10: an unknown `whence` value on a valid handle fails with
`EINVAL`. -/
theorem lseek_failure_preserves_state_witness :
    (vtpc_lseek stOneOpen 0 5 7).fst = -1 ∧
    (vtpc_lseek stOneOpen 0 5 7).snd.errno = EINVAL :=
  (lseek_failure_preserves_state stOneOpen 0 5 7).2.1 (by decide) (by decide)
    (by decide) (by decide)

/-! ## Write-back: pwrite facts and the fsync loop -/

/-- Slot `j` is a valid dirty block owned by descriptor `f`. -/
def ownedDirty (st : SysState) (f : Int) (j : Nat) : Prop :=
  (st.cache j).valid = true ∧ (st.cache j).fd = f ∧ (st.cache j).dirty = true

/-- Byte offset `o` lies in block `b`'s range of the backing store. -/
def inBlockRange (b o : Nat) : Prop :=
  b * BLOCK_SIZE ≤ o ∧ o < b * BLOCK_SIZE + BLOCK_SIZE

theorem inBlockRange_disjoint {b1 b2 o : Nat} (hne : b1 ≠ b2)
    (h : inBlockRange b1 o) : ¬inBlockRange b2 o := by
  intro h2
  rcases h with ⟨ha, hb⟩
  rcases h2 with ⟨hc, hd⟩
  simp only [BLOCK_SIZE] at ha hb hc hd
  omega

theorem pwriteFile_fail {env : IOEnv} {fdN : Nat}
    (h : env.writesFail fdN = true) (file : RawFile) (off : Nat)
    (bytes : Nat → Nat) (count : Nat) :
    pwriteFile env fdN file off bytes count = none := by
  simp [pwriteFile, h]

theorem pwriteFile_ok {env : IOEnv} {fdN : Nat}
    (h : env.writesFail fdN = false) (file : RawFile) (off : Nat)
    (bytes : Nat → Nat) (count : Nat) :
    ∃ file1, pwriteFile env fdN file off bytes count = some file1 ∧
      (∀ o, off ≤ o → o < off + count → storeByte file1 o = bytes (o - off)) ∧
      (∀ o, ¬(off ≤ o ∧ o < off + count) →
        storeByte file1 o = storeByte file o) ∧
      file1.syncCount = file.syncCount ∧
      file1.len = max file.len (off + count) := by
  refine ⟨{ file with
    len := max file.len (off + count),
    data := fun o =>
      if off ≤ o ∧ o < off + count then bytes (o - off)
      else if o < file.len then file.data o else 0 }, ?_, ?_, ?_, rfl, rfl⟩
  · simp [pwriteFile, h]
  · intro o h1 h2
    simp only [storeByte]
    rw [if_pos (by simp; omega)]
    rw [if_pos ⟨h1, h2⟩]
  · intro o h1
    simp only [storeByte, if_neg h1]
    by_cases hl : o < file.len
    · simp [hl, lt_of_lt_of_le hl (le_max_left file.len (off + count))]
    · simp [hl]

theorem fsyncLoop_fail {env : IOEnv} {f : Int}
    (hwf : env.writesFail f.toNat = true) :
    ∀ (fuel i : Nat) (st : SysState),
      (∃ j, i ≤ j ∧ j < i + fuel ∧ ownedDirty st f j) →
      fsyncLoop env st f i fuel = (false, st) := by
  intro fuel
  induction fuel with
  | zero =>
    intro i st ⟨j, h1, h2, _⟩
    omega
  | succ fuel ih =>
    intro i st ⟨j, h1, h2, hj⟩
    simp only [fsyncLoop]
    by_cases hc : (st.cache i).valid = true ∧ (st.cache i).fd = f ∧
        (st.cache i).dirty = true
    · rw [if_pos hc, pwriteFile_fail hwf]
    · rw [if_neg hc]
      apply ih
      refine ⟨j, ?_, by omega, hj⟩
      rcases Nat.eq_or_lt_of_le h1 with rfl | hlt
      · exact absurd hj hc
      · exact hlt


theorem fsyncLoop_ok {env : IOEnv} {f : Int}
    (hwf : env.writesFail f.toNat = false) :
    ∀ (fuel i : Nat) (st : SysState),
      ∃ st', fsyncLoop env st f i fuel = (true, st') ∧
        st'.openFiles = st.openFiles ∧
        st'.errno = st.errno ∧
        (∀ j, (st'.cache j).valid = (st.cache j).valid ∧
          (st'.cache j).fd = (st.cache j).fd ∧
          (st'.cache j).block_index = (st.cache j).block_index ∧
          (st'.cache j).data = (st.cache j).data ∧
          (st'.cache j).frequency = (st.cache j).frequency) ∧
        (∀ j, ¬(i ≤ j ∧ j < i + fuel) →
          (st'.cache j).dirty = (st.cache j).dirty) ∧
        (∀ j, i ≤ j → j < i + fuel → (st.cache j).valid = true →
          (st.cache j).fd = f → (st'.cache j).dirty = false) ∧
        (∀ g, g ≠ f.toNat → st'.files g = st.files g) ∧
        (st'.files f.toNat).syncCount = (st.files f.toNat).syncCount ∧
        (∀ o, (∀ j, i ≤ j → j < i + fuel → ownedDirty st f j →
            ¬inBlockRange (st.cache j).block_index o) →
          storeByte (st'.files f.toNat) o = storeByte (st.files f.toNat) o) ∧
        (∀ j, i ≤ j → j < i + fuel → ownedDirty st f j →
          (∀ k, i ≤ k → k < i + fuel → k ≠ j → ownedDirty st f k →
            (st.cache k).block_index ≠ (st.cache j).block_index) →
          ∀ m, m < BLOCK_SIZE →
            storeByte (st'.files f.toNat)
              ((st.cache j).block_index * BLOCK_SIZE + m)
              = (st.cache j).data m) := by
  intro fuel
  induction fuel with
  | zero =>
    intro i st
    exact ⟨st, rfl, rfl, rfl, fun j => ⟨rfl, rfl, rfl, rfl, rfl⟩,
      fun j _ => rfl, fun j h1 h2 => absurd h2 (by omega),
      fun g _ => rfl, rfl, fun o _ => rfl,
      fun j h1 h2 => absurd h2 (by omega)⟩
  | succ fuel ih =>
    intro i st
    simp only [fsyncLoop]
    by_cases hc : (st.cache i).valid = true ∧ (st.cache i).fd = f ∧
        (st.cache i).dirty = true
    · rw [if_pos hc]
      obtain ⟨file1, hpw, hin, hout, hsync, hlen⟩ :=
        pwriteFile_ok hwf (st.files f.toNat)
          ((st.cache i).block_index * BLOCK_SIZE) (st.cache i).data BLOCK_SIZE
      rw [hpw]
      obtain ⟨st', hrun, hof, herr, hfields, hdout, hdin, hfg, hsync2, hfr,
        hcontent⟩ := ih (i + 1) { st with
          files := updF st.files f.toNat file1,
          cache := updF st.cache i ({ st.cache i with dirty := false }) }
      have hc1 : ∀ j, j ≠ i →
          (updF st.cache i ({ st.cache i with dirty := false })) j
            = st.cache j := by
        intro j hj
        simp [updF, hj]
      have hc1i : (updF st.cache i ({ st.cache i with dirty := false })) i
          = { st.cache i with dirty := false } := by
        simp [updF]
      have hf1 : (updF st.files f.toNat file1) f.toNat = file1 := by
        simp [updF]
      have hfg1 : ∀ g, g ≠ f.toNat →
          (updF st.files f.toNat file1) g = st.files g := by
        intro g hg
        simp [updF, hg]
      have hod1 : ∀ j, j ≠ i →
          (ownedDirty { st with
            files := updF st.files f.toNat file1,
            cache := updF st.cache i ({ st.cache i with dirty := false }) }
            f j ↔ ownedDirty st f j) := by
        intro j hj
        unfold ownedDirty
        simp only [hc1 j hj]
      refine ⟨st', hrun, hof, herr, ?_, ?_, ?_, ?_, ?_, ?_, ?_⟩
      · intro j
        by_cases hj : j = i
        · subst hj
          have h0 := hfields j
          simp only [hc1i] at h0
          exact h0
        · have h0 := hfields j
          simp only [hc1 j hj] at h0
          exact h0
      · intro j hj
        have hj1 : ¬(i + 1 ≤ j ∧ j < i + 1 + fuel) := by omega
        have hji : j ≠ i := by omega
        have h0 := hdout j hj1
        simp only [hc1 j hji] at h0
        exact h0
      · intro j h1 h2 hv hfd
        by_cases hj : j = i
        · subst hj
          have h3 : ¬(j + 1 ≤ j ∧ j < j + 1 + fuel) := by omega
          have h0 := hdout j h3
          simp only [hc1i] at h0
          exact h0
        · have h4 : i + 1 ≤ j := by omega
          apply hdin j h4 (by omega)
          · simp only [hc1 j hj]
            exact hv
          · simp only [hc1 j hj]
            exact hfd
      · intro g hg
        rw [hfg g hg]
        exact hfg1 g hg
      · rw [hsync2]
        simp only [hf1]
        exact hsync
      · intro o ho
        have hnotour : ¬inBlockRange (st.cache i).block_index o :=
          ho i (Nat.le_refl i) (by omega) hc
        have h5 := hfr o ?_
        · rw [h5]
          simp only [hf1]
          apply hout
          intro hcon
          exact hnotour ⟨hcon.1, hcon.2⟩
        · intro j h1 h2 hodj
          have hji : j ≠ i := by omega
          simp only [hc1 j hji]
          exact ho j (by omega) (by omega) ((hod1 j hji).1 hodj)
      · intro j h1 h2 hodj hdis m hm
        by_cases hj : j = i
        · subst hj
          have hr : inBlockRange (st.cache j).block_index
              ((st.cache j).block_index * BLOCK_SIZE + m) :=
            ⟨Nat.le_add_right _ _, by omega⟩
          have h5 := hfr ((st.cache j).block_index * BLOCK_SIZE + m) ?_
          · rw [h5]
            simp only [hf1]
            have h6 := hin ((st.cache j).block_index * BLOCK_SIZE + m)
              (Nat.le_add_right _ _) (by omega)
            rw [h6]
            congr 1
            omega
          · intro k h3 h4 hodk
            have hkj : k ≠ j := by omega
            have hnk : (st.cache k).block_index ≠ (st.cache j).block_index :=
              hdis k (by omega) (by omega) hkj ((hod1 k hkj).1 hodk)
            have h7 := inBlockRange_disjoint (Ne.symm hnk) hr
            simp only [hc1 k hkj]
            exact h7
        · have h4 : i + 1 ≤ j := by omega
          have hodj1 := (hod1 j hj).2 hodj
          have h0 := hcontent j h4 (by omega) hodj1 ?_ m hm
          · simp only [hc1 j hj] at h0
            exact h0
          · intro k h5 h6 hkj hodk1
            have hki : k ≠ i := by omega
            simp only [hc1 k hki, hc1 j hj]
            exact hdis k (by omega) (by omega) hkj ((hod1 k hki).1 hodk1)
    · rw [if_neg hc]
      obtain ⟨st', hrun, hof, herr, hfields, hdout, hdin, hfg, hsync2, hfr,
        hcontent⟩ := ih (i + 1) st
      refine ⟨st', hrun, hof, herr, hfields, ?_, ?_, hfg, hsync2, ?_, ?_⟩
      · intro j hj
        apply hdout
        omega
      · intro j h1 h2 hv hfd
        by_cases hj : j = i
        · subst hj
          have hnd : (st.cache j).dirty = false := by
            rcases Bool.eq_false_or_eq_true (st.cache j).dirty with h | h
            · exact absurd ⟨hv, hfd, h⟩ hc
            · exact h
          rw [hdout j (by omega), hnd]
        · exact hdin j (by omega) (by omega) hv hfd
      · intro o ho
        apply hfr
        intro j h1 h2 hodj
        exact ho j (by omega) (by omega) hodj
      · intro j h1 h2 hodj hdis m hm
        have hji : j ≠ i := by
          intro hji
          subst hji
          exact hc hodj
        apply hcontent j (by omega) (by omega) hodj ?_ m hm
        intro k h3 h4 hkj hodk
        exact hdis k (by omega) (by omega) hkj hodk

theorem truncateFile_storeByte_lt {file : RawFile} {sz o : Nat} (h : o < sz) :
    storeByte (truncateFile file sz) o = storeByte file o := by
  simp only [truncateFile, storeByte]
  by_cases hl : o < file.len
  · rw [if_pos h, if_pos (by omega), if_pos hl]
  · rw [if_pos h, if_neg (by omega), if_neg hl]

theorem updF_self {α : Type} (g : Nat → α) (i : Nat) (v : α) :
    updF g i v i = v := by
  simp [updF]

theorem updF_other {α : Type} (g : Nat → α) (i j : Nat) (v : α) (h : j ≠ i) :
    updF g i v j = g j := by
  simp [updF, h]

theorem vtpc_fsync_ok_eq (env : IOEnv) (st : SysState) (fd f : Int)
    (hok : ¬(fd < 0 ∨ (MAX_OPEN_FILES : Int) ≤ fd ∨
      (st.openFiles fd.toNat).os_fd = -1))
    (hf : (st.openFiles fd.toNat).os_fd = f)
    (hsf : env.syncFails f.toNat = false) {st' : SysState}
    (hrun : fsyncLoop env st f 0 CACHE_SIZE_BLOCKS = (true, st')) :
    vtpc_fsync env st fd = (0, { st' with
      files := updF
        (updF st'.files f.toNat
          ({ st'.files f.toNat with
             syncCount := (st'.files f.toNat).syncCount + 1 }))
        f.toNat
        (truncateFile
          ((updF st'.files f.toNat
            ({ st'.files f.toNat with
               syncCount := (st'.files f.toNat).syncCount + 1 })) f.toNat)
          ((st'.openFiles fd.toNat).file_size)) }) := by
  have hcond : ¬(env.syncFails f.toNat = true) := by
    rw [hsf]
    exact Bool.false_ne_true
  unfold vtpc_fsync
  rw [if_neg hok]
  simp only [hf, hrun]
  rw [if_neg hcond]

/-- Claim C4: `vtpc_fsync` writes each dirty block owned by the handle's raw
descriptor back to offset `block_index * BLOCK_SIZE`, clearing dirty flags as
the write-backs succeed; if a write-back fails, it returns -1 with the state
exactly as it was (all dirty flags kept, no durability barrier, no
length reconciliation); on full success it returns 0, clears the owned dirty
flags, bumps the barrier counter and truncates the backing file to the
tracked size.  (The success-path per-block store contents additionally assume
the pool holds no duplicate (descriptor, block) pair, which is the pool
invariant of C8.) -/
theorem fsync_flush_and_failure_behaviour (env : IOEnv) (st : SysState)
    (fd f : Int)
    (hok : ¬(fd < 0 ∨ (MAX_OPEN_FILES : Int) ≤ fd ∨
      (st.openFiles fd.toNat).os_fd = -1))
    (hf : (st.openFiles fd.toNat).os_fd = f) :
    (env.writesFail f.toNat = true →
      (∃ j, j < CACHE_SIZE_BLOCKS ∧ ownedDirty st f j) →
      vtpc_fsync env st fd = (-1, st)) ∧
    (env.writesFail f.toNat = false → env.syncFails f.toNat = false →
      (∀ i j, i < CACHE_SIZE_BLOCKS → j < CACHE_SIZE_BLOCKS → i ≠ j →
        (st.cache i).valid = true → (st.cache i).fd = f →
        (st.cache j).valid = true → (st.cache j).fd = f →
        (st.cache i).block_index ≠ (st.cache j).block_index) →
      (vtpc_fsync env st fd).fst = 0 ∧
      (∀ j, j < CACHE_SIZE_BLOCKS → (st.cache j).valid = true →
        (st.cache j).fd = f →
        ((vtpc_fsync env st fd).snd.cache j).dirty = false) ∧
      ((vtpc_fsync env st fd).snd.files f.toNat).syncCount
        = (st.files f.toNat).syncCount + 1 ∧
      ((vtpc_fsync env st fd).snd.files f.toNat).len
        = (st.openFiles fd.toNat).file_size ∧
      (∀ j, j < CACHE_SIZE_BLOCKS → ownedDirty st f j →
        ∀ m, m < BLOCK_SIZE →
          (st.cache j).block_index * BLOCK_SIZE + m
            < (st.openFiles fd.toNat).file_size →
          storeByte ((vtpc_fsync env st fd).snd.files f.toNat)
            ((st.cache j).block_index * BLOCK_SIZE + m)
            = (st.cache j).data m)) := by
  constructor
  · rintro hwf ⟨j, hj, hodj⟩
    unfold vtpc_fsync
    rw [if_neg hok]
    simp only [hf]
    rw [fsyncLoop_fail hwf CACHE_SIZE_BLOCKS 0 st ⟨j, Nat.zero_le j,
      by omega, hodj⟩]
  · intro hwf hsf hdisj
    obtain ⟨st', hrun, hof, herr, hfields, hdout, hdin, hfg, hsync2, hfr,
      hcontent⟩ := fsyncLoop_ok hwf CACHE_SIZE_BLOCKS 0 st
    have heq := vtpc_fsync_ok_eq env st fd f hok hf hsf hrun
    rw [heq]
    refine ⟨rfl, ?_, ?_, ?_, ?_⟩
    · intro j hj hv hfd
      exact hdin j (Nat.zero_le j) (by omega) hv hfd
    · dsimp only
      simp only [updF_self]
      dsimp only [truncateFile]
      rw [hsync2]
    · dsimp only
      simp only [updF_self]
      dsimp only [truncateFile]
      rw [hof]
    · intro j hj hodj m hm hlt
      dsimp only
      simp only [updF_self]
      have hlt2 : (st.cache j).block_index * BLOCK_SIZE + m
          < (st'.openFiles fd.toNat).file_size := by
        rw [hof]; exact hlt
      rw [truncateFile_storeByte_lt hlt2]
      have hsb : storeByte ({ st'.files f.toNat with
          syncCount := (st'.files f.toNat).syncCount + 1 })
          ((st.cache j).block_index * BLOCK_SIZE + m)
          = storeByte (st'.files f.toNat)
            ((st.cache j).block_index * BLOCK_SIZE + m) := rfl
      rw [hsb]
      exact hcontent j (Nat.zero_le j) (by omega) hodj
        (fun k _ hk2 hkj hodk =>
          hdisj k j (by omega) hj hkj hodk.1 hodk.2.1 hodj.1 hodj.2.1) m hm

instance (st : SysState) (f : Int) (j : Nat) :
    Decidable (ownedDirty st f j) := by
  unfold ownedDirty
  infer_instance

/-- A valid dirty block of descriptor 0 at block index 0. -/
def dirtyBlock0 : CacheBlock :=
  { data := fun _ => 7, fd := 0, block_index := 0, dirty := true,
    frequency := 1, valid := true }

/-- Handle 0 open on raw descriptor 0 with one dirty cached block. -/
def stDirty0 : SysState :=
  { baseState with
    cache := updF baseState.cache 0 dirtyBlock0,
    openFiles := updF baseState.openFiles 0
      ({ os_fd := 0, current_offset := 0, file_size := 5, flags := 0 }) }

/-- Every descriptor's writes fail. -/
def failWrites : IOEnv := { noFaults with writesFail := fun _ => true }

/-- Witness for C4: with a failing descriptor and one owned dirty block,
`vtpc_fsync` returns -1 and the state is completely untouched. -/
theorem fsync_flush_and_failure_behaviour_witness :
    vtpc_fsync failWrites stDirty0 0 = (-1, stDirty0) :=
  (fsync_flush_and_failure_behaviour failWrites stDirty0 0 0 (by decide)
      (by decide)).1 (by decide) ⟨0, by decide, by decide⟩

/-! ## Close: claims C3 and C2 -/

theorem fsyncLoop_shape (env : IOEnv) (f : Int) :
    ∀ (fuel i : Nat) (st : SysState),
      ((fsyncLoop env st f i fuel).snd.openFiles = st.openFiles) ∧
      (∀ j, ((fsyncLoop env st f i fuel).snd.cache j).valid
              = (st.cache j).valid ∧
            ((fsyncLoop env st f i fuel).snd.cache j).fd = (st.cache j).fd ∧
            ((fsyncLoop env st f i fuel).snd.cache j).block_index
              = (st.cache j).block_index) := by
  intro fuel
  induction fuel with
  | zero => intro i st; exact ⟨rfl, fun j => ⟨rfl, rfl, rfl⟩⟩
  | succ fuel ih =>
    intro i st
    simp only [fsyncLoop]
    by_cases hc : (st.cache i).valid = true ∧ (st.cache i).fd = f ∧
        (st.cache i).dirty = true
    · rw [if_pos hc]
      cases hpw : pwriteFile env f.toNat (st.files f.toNat)
          ((st.cache i).block_index * BLOCK_SIZE) (st.cache i).data
          BLOCK_SIZE with
      | none => exact ⟨rfl, fun j => ⟨rfl, rfl, rfl⟩⟩
      | some file1 =>
        obtain ⟨h1, h2⟩ := ih (i + 1) { st with
          files := updF st.files f.toNat file1,
          cache := updF st.cache i ({ st.cache i with dirty := false }) }
        refine ⟨h1, ?_⟩
        intro j
        obtain ⟨ha, hb, hd⟩ := h2 j
        by_cases hj : j = i
        · subst hj
          rw [ha, hb, hd]
          simp [updF]
        · rw [ha, hb, hd]
          simp [updF, hj]
    · rw [if_neg hc]
      exact ih (i + 1) st

theorem vtpc_fsync_shape (env : IOEnv) (st : SysState) (fd : Int) :
    ((vtpc_fsync env st fd).snd.openFiles = st.openFiles) ∧
    (∀ j, ((vtpc_fsync env st fd).snd.cache j).valid = (st.cache j).valid ∧
          ((vtpc_fsync env st fd).snd.cache j).fd = (st.cache j).fd ∧
          ((vtpc_fsync env st fd).snd.cache j).block_index
            = (st.cache j).block_index) := by
  unfold vtpc_fsync
  by_cases hbad : fd < 0 ∨ (MAX_OPEN_FILES : Int) ≤ fd ∨
      (st.openFiles fd.toNat).os_fd = -1
  · rw [if_pos hbad]
    exact ⟨rfl, fun j => ⟨rfl, rfl, rfl⟩⟩
  · rw [if_neg hbad]
    dsimp only
    obtain ⟨h1, h2⟩ :=
      fsyncLoop_shape env ((st.openFiles fd.toNat).os_fd) CACHE_SIZE_BLOCKS 0 st
    split
    · rename_i st1 heq
      rw [heq] at h1 h2
      exact ⟨h1, h2⟩
    · rename_i st1 heq
      rw [heq] at h1 h2
      split
      · exact ⟨h1, h2⟩
      · exact ⟨h1, h2⟩

/-- Claim C3 (amended): `vtpc_close` on a valid handle invokes the forced
write-back (`vtpc_fsync`) but discards its result; the value returned is that
of the raw `close`, not of the flush.  In all cases every cache slot owned by
the descriptor is invalidated, the backing files are exactly those left by
the flush, and the handle slot is released. -/
theorem close_releases_handle_regardless (env : IOEnv) (st : SysState)
    (fd f : Int)
    (hok : ¬(fd < 0 ∨ (MAX_OPEN_FILES : Int) ≤ fd ∨
      (st.openFiles fd.toNat).os_fd = -1))
    (hf : (st.openFiles fd.toNat).os_fd = f) :
    (vtpc_close env st fd).fst
      = (if env.closeFails f.toNat = true then (-1 : Int) else 0) ∧
    (∀ i, i < CACHE_SIZE_BLOCKS →
      ¬(((vtpc_close env st fd).snd.cache i).valid = true ∧
        ((vtpc_close env st fd).snd.cache i).fd = f)) ∧
    ((vtpc_close env st fd).snd.openFiles fd.toNat).os_fd = -1 ∧
    (vtpc_close env st fd).snd.files = (vtpc_fsync env st fd).snd.files := by
  refine ⟨?_, ?_, ?_, ?_⟩
  · unfold vtpc_close
    rw [if_neg hok]
    dsimp only
    rw [hf]
  · intro i hi
    unfold vtpc_close
    rw [if_neg hok]
    dsimp only
    rw [hf]
    by_cases hc : i < CACHE_SIZE_BLOCKS ∧
        (((vtpc_fsync env st fd).snd.cache i).valid = true) ∧
        ((vtpc_fsync env st fd).snd.cache i).fd = f
    · rw [if_pos hc]
      rintro ⟨hv, _⟩
      cases hv
    · rw [if_neg hc]
      rintro ⟨hv, hfd⟩
      exact hc ⟨hi, hv, hfd⟩
  · unfold vtpc_close
    rw [if_neg hok]
    dsimp only
    rw [updF_self]
  · unfold vtpc_close
    rw [if_neg hok]

/-- Counterexample for C3 as stated: handle 0 holds a dirty block and every
write to its descriptor fails, so the forced flush inside `vtpc_close` fails
(`vtpc_fsync` returns -1), yet `vtpc_close` returns 0 — the write-back
failure is not reported as the close call's outcome. -/
theorem close_ignores_flush_failure_cex :
    (stDirty0.cache 0).dirty = true ∧ (stDirty0.cache 0).fd = 0 ∧
    (stDirty0.openFiles 0).os_fd = 0 ∧
    failWrites.writesFail 0 = true ∧
    (vtpc_fsync failWrites stDirty0 0).fst = -1 ∧
    (vtpc_close failWrites stDirty0 0).fst = 0 := by
  decide

/-- Witness for the amended C3 at a concrete state. -/
theorem close_releases_handle_regardless_witness :
    (vtpc_close failWrites stDirty0 0).fst
      = (if failWrites.closeFails (0 : Int).toNat = true then (-1 : Int)
         else 0) ∧
    ((vtpc_close failWrites stDirty0 0).snd.openFiles (0 : Int).toNat).os_fd
      = -1 :=
  ⟨(close_releases_handle_regardless failWrites stDirty0 0 0 (by decide)
      (by decide)).1,
   (close_releases_handle_regardless failWrites stDirty0 0 0 (by decide)
      (by decide)).2.2.1⟩

/-- Claim C2 (amended): when the slot selected for eviction is dirty and the
write of its contents back to the backing store fails or is short, the
failure is only reported on `stderr`; the eviction proceeds exactly as on
success except that the store is untouched — the slot is invalidated and
returned, and the triggering operation never sees the failure. -/
theorem evict_writeback_failure_silent (env : IOEnv) (st : SysState) (c : Nat)
    (hsel : evictScan st.cache 0 none 0 CACHE_SIZE_BLOCKS = Sum.inr (some c))
    (hdirty : (st.cache c).dirty = true)
    (hwf : env.writesFail ((st.cache c).fd).toNat = true) :
    evict_block env st = (c, invalidateSlot st c) := by
  unfold evict_block
  simp only [hsel]
  rw [if_pos hdirty]
  simp only [pwriteFile_fail hwf]

/-- A fully valid pool owned by descriptor 0: slot `i` holds block `i`;
slot 3 is dirty and has the highest access counter.  Handle 0 is open on a
different descriptor, 1, whose backing file holds 5 bytes `10..14`. -/
def fullBlock (i : Nat) : CacheBlock :=
  { data := fun _ => 1, fd := 0, block_index := i, dirty := i == 3,
    frequency := if i = 3 then 9 else 1, valid := true }

def stFull : SysState :=
  { cache := fun i => fullBlock i,
    openFiles := updF (fun _ => freeCtx) 0
      ({ os_fd := 1, current_offset := 0, file_size := 5, flags := 0 }),
    files := updF (fun _ => emptyFile) 1
      ({ len := 5, data := fun o => o + 10, syncCount := 0 }),
    errno := 0 }

/-- Only descriptor 0's writes fail. -/
def failWrites0 : IOEnv := { noFaults with writesFail := fun g => g == 0 }

/-- Counterexample for C2 as stated: the read on handle 0 misses, evicts
slot 3 — which is dirty and whose descriptor's write-back fails — and still
succeeds, returning 2 bytes; the dirty block's contents never reach its
backing file (its length stays 0).  The write-back failure is silently
swallowed from the caller's point of view. -/
theorem evict_writeback_failure_not_surfaced_cex :
    (evict_block failWrites0 stFull).fst = 3 ∧
    (stFull.cache 3).dirty = true ∧
    failWrites0.writesFail ((stFull.cache 3).fd).toNat = true ∧
    (vtpc_read failWrites0 stFull 0 2).fst = 2 ∧
    (vtpc_read failWrites0 stFull 0 2).snd.fst = [10, 11] ∧
    ((vtpc_read failWrites0 stFull 0 2).snd.snd.files 0).len = 0 := by
  decide

/-- Witness for the amended C2 at a concrete state. -/
theorem evict_writeback_failure_silent_witness :
    evict_block failWrites0 stFull = (3, invalidateSlot stFull 3) :=
  evict_writeback_failure_silent failWrites0 stFull 3 (by decide) (by decide)
    (by decide)

/-! ## The pool invariant (claim C8) -/

/-- At most one pool slot is simultaneously valid and matching any given
(descriptor, block index) pair. -/
def PoolInv (st : SysState) : Prop :=
  ∀ (g : Int) (bi : Nat) (i j : Nat),
    i < CACHE_SIZE_BLOCKS → j < CACHE_SIZE_BLOCKS →
    cacheMatch st.cache i g bi → cacheMatch st.cache j g bi → i = j

theorem cacheMatch_congr {c1 c2 : Nat → CacheBlock}
    (h : ∀ i, (c2 i).valid = (c1 i).valid ∧ (c2 i).fd = (c1 i).fd ∧
      (c2 i).block_index = (c1 i).block_index) :
    ∀ i g bi, cacheMatch c2 i g bi ↔ cacheMatch c1 i g bi := by
  intro i g bi
  unfold cacheMatch
  rw [(h i).1, (h i).2.1, (h i).2.2]

theorem PoolInv_of_pointwise {st st' : SysState}
    (h : ∀ i g bi, i < CACHE_SIZE_BLOCKS → cacheMatch st'.cache i g bi →
      cacheMatch st.cache i g bi) :
    PoolInv st → PoolInv st' := by
  intro hinv g bi i j hi hj hmi hmj
  exact hinv g bi i j hi hj (h i g bi hi hmi) (h j g bi hj hmj)

theorem evict_block_cache_cases (env : IOEnv) (st : SysState) :
    ∀ i, ((evict_block env st).snd.cache i = st.cache i) ∨
      (((evict_block env st).snd.cache i).valid = false) := by
  intro i
  unfold evict_block
  cases hscan : evictScan st.cache 0 none 0 CACHE_SIZE_BLOCKS with
  | inl j => left; rfl
  | inr o =>
    cases o with
    | none => left; rfl
    | some c =>
      dsimp only [invalidateSlot]
      by_cases hic : i = c
      · subst hic
        right
        split
        · split
          · rw [updF_self]
          · rw [updF_self]
        · rw [updF_self]
      · left
        split
        · split
          · rw [updF_other _ _ _ _ hic]
          · rw [updF_other _ _ _ _ hic]
        · rw [updF_other _ _ _ _ hic]

theorem evict_block_PoolInv (env : IOEnv) (st : SysState) (hinv : PoolInv st) :
    PoolInv (evict_block env st).snd := by
  apply PoolInv_of_pointwise ?_ hinv
  intro i g bi _ hm
  rcases evict_block_cache_cases env st i with he | he
  · unfold cacheMatch at hm ⊢
    rw [he] at hm
    exact hm
  · exact absurd hm.1 (by rw [he]; exact Bool.false_ne_true)

theorem evict_block_match_sub (env : IOEnv) (st : SysState) :
    ∀ i g bi, cacheMatch (evict_block env st).snd.cache i g bi →
      cacheMatch st.cache i g bi := by
  intro i g bi hm
  rcases evict_block_cache_cases env st i with he | he
  · unfold cacheMatch at hm ⊢
    rw [he] at hm
    exact hm
  · exact absurd hm.1 (by rw [he]; exact Bool.false_ne_true)

theorem find_cache_block_none_match {st : SysState} {f : Int} {bi : Nat}
    (h : find_cache_block st f bi = none) :
    ∀ i, i < CACHE_SIZE_BLOCKS → ¬cacheMatch st.cache i f bi := by
  intro i hi
  exact findLoop_none h i (Nat.zero_le i) (by omega)

theorem find_cache_block_some_match {st : SysState} {f : Int} {bi ci : Nat}
    (h : find_cache_block st f bi = some ci) :
    ci < CACHE_SIZE_BLOCKS ∧ cacheMatch st.cache ci f bi := by
  have h0 := findLoop_some h
  exact ⟨by omega, h0.2.2⟩

theorem PoolInv_populate {st : SysState} (hinv : PoolInv st) {f : Int}
    {blockIdx : Nat}
    (hmiss : ∀ i, i < CACHE_SIZE_BLOCKS → ¬cacheMatch st.cache i f blockIdx)
    {st1 : SysState}
    (hsub : ∀ i g bi, cacheMatch st1.cache i g bi →
      cacheMatch st.cache i g bi)
    (ci : Nat) (d : Nat → Nat) (dr : Bool) (fr : Nat) :
    PoolInv { st1 with
      cache := updF st1.cache ci
        ({ data := d, fd := f, block_index := blockIdx, dirty := dr,
           frequency := fr, valid := true }) } := by
  intro g bi i j hi hj hmi hmj
  unfold cacheMatch at hmi hmj
  dsimp only at hmi hmj
  by_cases hic : i = ci <;> by_cases hjc : j = ci
  · rw [hic, hjc]
  · exfalso
    subst hic
    rw [updF_self] at hmi
    rw [updF_other _ _ _ _ hjc] at hmj
    obtain ⟨_, hg, hbi⟩ := hmi
    apply hmiss j hj
    rw [← hg, ← hbi] at hmj
    exact hsub j f blockIdx hmj
  · exfalso
    subst hjc
    rw [updF_self] at hmj
    rw [updF_other _ _ _ _ hic] at hmi
    obtain ⟨_, hg, hbi⟩ := hmj
    apply hmiss i hi
    rw [← hg, ← hbi] at hmi
    exact hsub i f blockIdx hmi
  · rw [updF_other _ _ _ _ hic] at hmi
    rw [updF_other _ _ _ _ hjc] at hmj
    exact hinv g bi i j hi hj (hsub i g bi hmi) (hsub j g bi hmj)

theorem readLocate_PoolInv (env : IOEnv) (st : SysState) (f : Int)
    (blockIdx : Nat) (hinv : PoolInv st) :
    (∀ st1, readLocate env st f blockIdx = Sum.inl st1 → PoolInv st1) ∧
    (∀ ci st1, readLocate env st f blockIdx = Sum.inr (ci, st1) →
      PoolInv st1) := by
  unfold readLocate
  cases hfind : find_cache_block st f blockIdx with
  | some ci =>
    refine ⟨fun st1 h => (by cases h), ?_⟩
    intro ci' st1 h
    injection h with h
    injection h with h1 h2
    rw [← h2]
    apply PoolInv_of_pointwise ?_ hinv
    intro i g bi _ hm
    revert hm
    unfold cacheMatch
    dsimp only
    by_cases hi : i = ci
    · subst hi
      rw [updF_self]
      intro hm
      exact hm
    · rw [updF_other _ _ _ _ hi]
      intro hm
      exact hm
  | none =>
    dsimp only
    cases hread : preadLen env f.toNat ((evict_block env st).snd.files f.toNat)
        (blockIdx * BLOCK_SIZE) BLOCK_SIZE with
    | none =>
      refine ⟨?_, fun ci st1 h => (by cases h)⟩
      intro st1 h
      injection h with h
      rw [← h]
      exact evict_block_PoolInv env st hinv
    | some r =>
      refine ⟨fun st1 h => (by cases h), ?_⟩
      intro ci st1 h
      injection h with h
      injection h with h1 h2
      rw [← h2]
      exact PoolInv_populate hinv (find_cache_block_none_match hfind)
        (evict_block_match_sub env st) _ _ _ _

theorem writeLocate_PoolInv (env : IOEnv) (st : SysState) (f : Int)
    (blockIdx toCopy : Nat) (hinv : PoolInv st) :
    PoolInv (writeLocate env st f blockIdx toCopy).snd := by
  unfold writeLocate
  cases hfind : find_cache_block st f blockIdx with
  | some ci =>
    dsimp only
    apply PoolInv_of_pointwise ?_ hinv
    intro i g bi _ hm
    revert hm
    unfold cacheMatch
    dsimp only
    by_cases hi : i = ci
    · subst hi
      rw [updF_self]
      intro hm
      exact hm
    · rw [updF_other _ _ _ _ hi]
      intro hm
      exact hm
  | none =>
    dsimp only
    exact PoolInv_populate hinv (find_cache_block_none_match hfind)
      (evict_block_match_sub env st) _ _ _ _

theorem PoolInv_update_data_dirty {st1 : SysState} (hinv : PoolInv st1)
    (ci : Nat) (d : Nat → Nat) (dr : Bool) :
    PoolInv { st1 with
      cache := updF st1.cache ci
        ({ st1.cache ci with data := d, dirty := dr }) } := by
  apply PoolInv_of_pointwise ?_ hinv
  intro i g bi _ hm
  revert hm
  unfold cacheMatch
  dsimp only
  by_cases hi : i = ci
  · subst hi
    rw [updF_self]
    intro hm
    exact hm
  · rw [updF_other _ _ _ _ hi]
    intro hm
    exact hm

theorem writeLoop_PoolInv (env : IOEnv) (f : Int) :
    ∀ (fuel : Nat) (bs : List Nat) (pos : Nat) (st : SysState), PoolInv st →
      PoolInv (writeLoop env st f pos bs fuel) := by
  intro fuel
  induction fuel with
  | zero =>
    intro bs pos st hinv
    cases bs with
    | nil => exact hinv
    | cons b rest => exact hinv
  | succ fuel ih =>
    intro bs pos st hinv
    cases bs with
    | nil => exact hinv
    | cons b rest =>
      simp only [writeLoop]
      apply ih
      exact PoolInv_update_data_dirty
        (writeLocate_PoolInv env st f _ _ hinv) _ _ _

theorem readLoop_PoolInv (env : IOEnv) (f : Int) :
    ∀ (fuel rem pos : Nat) (st : SysState), PoolInv st →
      PoolInv (readLoop env st f pos rem fuel).snd := by
  intro fuel
  induction fuel with
  | zero =>
    intro rem pos st hinv
    cases rem with
    | zero => exact hinv
    | succ rem => exact hinv
  | succ fuel ih =>
    intro rem pos st hinv
    cases rem with
    | zero => exact hinv
    | succ rem =>
      simp only [readLoop]
      split
      · rename_i st1 hloc
        exact (readLocate_PoolInv env st f _ hinv).1 st1 hloc
      · rename_i ci st1 hloc
        have hinv1 := (readLocate_PoolInv env st f _ hinv).2 ci st1 hloc
        have hx := ih (rem + 1 - min (BLOCK_SIZE - pos % BLOCK_SIZE) (rem + 1))
          (pos + min (BLOCK_SIZE - pos % BLOCK_SIZE) (rem + 1)) st1 hinv1
        split
        · rename_i st2 heq
          rw [heq] at hx
          exact hx
        · rename_i rest st2 heq
          rw [heq] at hx
          exact hx

theorem vtpc_fsync_PoolInv (env : IOEnv) (st : SysState) (fd : Int)
    (hinv : PoolInv st) : PoolInv (vtpc_fsync env st fd).snd := by
  apply PoolInv_of_pointwise ?_ hinv
  intro i g bi _ hm
  obtain ⟨_, h2⟩ := vtpc_fsync_shape env st fd
  exact (cacheMatch_congr (fun j => h2 j) i g bi).1 hm

/-- Claim C8: every operation preserves the pool invariant that at most one
slot is simultaneously valid and matching a given (descriptor, block index)
pair: a miss is repopulated only into a slot whose previous identity has been
invalidated (the eviction cases and `PoolInv_populate` above), and close
invalidates every slot of the closed descriptor. -/
theorem pool_invariant_preserved (env : IOEnv) (st : SysState)
    (hinv : PoolInv st) :
    (∀ osFd flags mode, PoolInv (vtpc_open st osFd flags mode).snd) ∧
    (∀ fd offset whence, PoolInv (vtpc_lseek st fd offset whence).snd) ∧
    (∀ fd count, PoolInv (vtpc_read env st fd count).snd.snd) ∧
    (∀ fd bs, PoolInv (vtpc_write env st fd bs).snd) ∧
    (∀ fd, PoolInv (vtpc_fsync env st fd).snd) ∧
    (∀ fd, PoolInv (vtpc_close env st fd).snd) := by
  refine ⟨?_, ?_, ?_, ?_, ?_, ?_⟩
  · intro osFd flags mode
    unfold vtpc_open
    cases findFreeHandle st.openFiles 0 MAX_OPEN_FILES with
    | none => exact hinv
    | some h => exact hinv
  · intro fd offset whence
    unfold vtpc_lseek
    split
    · exact hinv
    · dsimp only
      split
      · exact hinv
      · split
        · exact hinv
        · exact hinv
  · intro fd count
    unfold vtpc_read
    split
    · exact hinv
    · dsimp only
      split
      · exact hinv
      · have hx := readLoop_PoolInv env ((st.openFiles fd.toNat).os_fd)
          (min count
            ((st.openFiles fd.toNat).file_size
              - (st.openFiles fd.toNat).current_offset))
          (min count
            ((st.openFiles fd.toNat).file_size
              - (st.openFiles fd.toNat).current_offset))
          ((st.openFiles fd.toNat).current_offset) st hinv
        split
        · rename_i st1 heq
          rw [heq] at hx
          exact hx
        · rename_i bytes st1 heq
          rw [heq] at hx
          exact hx
  · intro fd bs
    unfold vtpc_write
    split
    · exact hinv
    · dsimp only
      have hx := writeLoop_PoolInv env ((st.openFiles fd.toNat).os_fd)
        bs.length bs ((st.openFiles fd.toNat).current_offset) st hinv
      split
      · exact hx
      · exact hx
  · intro fd
    exact vtpc_fsync_PoolInv env st fd hinv
  · intro fd
    unfold vtpc_close
    split
    · exact hinv
    · dsimp only
      apply PoolInv_of_pointwise ?_ hinv
      intro i g bi _ hm
      unfold cacheMatch at hm ⊢
      dsimp only at hm
      split at hm
      · exact absurd hm.1 Bool.false_ne_true
      · obtain ⟨_, h2⟩ := vtpc_fsync_shape env st fd
        rw [(h2 i).1, (h2 i).2.1, (h2 i).2.2] at hm
        exact hm

/-- All slots of `stOneOpen` are invalid, so the invariant holds vacuously. -/
theorem PoolInv_stOneOpen : PoolInv stOneOpen := by
  intro g bi i j hi hj hmi hmj
  exfalso
  have hv := hmi.1
  simp [stOneOpen, baseState, emptyBlock, cacheMatch] at hv

/-- Witness for C8: a read on a concrete state keeps the invariant. -/
theorem pool_invariant_preserved_witness :
    PoolInv (vtpc_read noFaults stOneOpen 0 1).snd.snd :=
  (pool_invariant_preserved noFaults stOneOpen PoolInv_stOneOpen).2.2.1 0 1

/-! ## Read clamping (claim C7) -/

theorem evict_block_openFiles (env : IOEnv) (st : SysState) :
    (evict_block env st).snd.openFiles = st.openFiles := by
  unfold evict_block
  cases evictScan st.cache 0 none 0 CACHE_SIZE_BLOCKS with
  | inl j => rfl
  | inr o =>
    cases o with
    | none => rfl
    | some c =>
      dsimp only [invalidateSlot]
      split
      · split
        · rfl
        · rfl
      · rfl

theorem evict_block_errno (env : IOEnv) (st : SysState) :
    (evict_block env st).snd.errno = st.errno := by
  unfold evict_block
  cases evictScan st.cache 0 none 0 CACHE_SIZE_BLOCKS with
  | inl j => rfl
  | inr o =>
    cases o with
    | none => rfl
    | some c =>
      dsimp only [invalidateSlot]
      split
      · split
        · rfl
        · rfl
      · rfl

theorem readLocate_openFiles (env : IOEnv) (st : SysState) (f : Int)
    (blockIdx : Nat) :
    (∀ st1, readLocate env st f blockIdx = Sum.inl st1 →
      st1.openFiles = st.openFiles ∧ st1.errno = st.errno) ∧
    (∀ ci st1, readLocate env st f blockIdx = Sum.inr (ci, st1) →
      st1.openFiles = st.openFiles ∧ st1.errno = st.errno) := by
  unfold readLocate
  cases hfind : find_cache_block st f blockIdx with
  | some ci =>
    refine ⟨fun st1 h => (by cases h), ?_⟩
    intro ci' st1 h
    injection h with h
    injection h with h1 h2
    rw [← h2]
    exact ⟨rfl, rfl⟩
  | none =>
    dsimp only
    cases hread : preadLen env f.toNat ((evict_block env st).snd.files f.toNat)
        (blockIdx * BLOCK_SIZE) BLOCK_SIZE with
    | none =>
      refine ⟨?_, fun ci st1 h => (by cases h)⟩
      intro st1 h
      injection h with h
      rw [← h]
      exact ⟨evict_block_openFiles env st, evict_block_errno env st⟩
    | some r =>
      refine ⟨fun st1 h => (by cases h), ?_⟩
      intro ci st1 h
      injection h with h
      injection h with h1 h2
      rw [← h2]
      exact ⟨evict_block_openFiles env st, evict_block_errno env st⟩

theorem readLoop_openFiles (env : IOEnv) (f : Int) :
    ∀ (fuel rem pos : Nat) (st : SysState),
      (readLoop env st f pos rem fuel).snd.openFiles = st.openFiles ∧
      (readLoop env st f pos rem fuel).snd.errno = st.errno := by
  intro fuel
  induction fuel with
  | zero =>
    intro rem pos st
    cases rem with
    | zero => exact ⟨rfl, rfl⟩
    | succ rem => exact ⟨rfl, rfl⟩
  | succ fuel ih =>
    intro rem pos st
    cases rem with
    | zero => exact ⟨rfl, rfl⟩
    | succ rem =>
      simp only [readLoop]
      split
      · rename_i st1 hloc
        exact (readLocate_openFiles env st f _).1 st1 hloc
      · rename_i ci st1 hloc
        have h1 := (readLocate_openFiles env st f _).2 ci st1 hloc
        have hx := ih (rem + 1 - min (BLOCK_SIZE - pos % BLOCK_SIZE) (rem + 1))
          (pos + min (BLOCK_SIZE - pos % BLOCK_SIZE) (rem + 1)) st1
        split
        · rename_i st2 heq
          rw [heq] at hx
          exact ⟨hx.1.trans h1.1, hx.2.trans h1.2⟩
        · rename_i rest st2 heq
          rw [heq] at hx
          exact ⟨hx.1.trans h1.1, hx.2.trans h1.2⟩

theorem blockBytes_length (d : Nat → Nat) (off n : Nat) :
    (blockBytes d off n).length = n := by
  simp [blockBytes]

theorem readLoop_length (env : IOEnv) (f : Int) :
    ∀ (fuel rem pos : Nat) (st : SysState) (bytes : List Nat) (st' : SysState),
      readLoop env st f pos rem fuel = (some bytes, st') →
      bytes.length = rem := by
  intro fuel
  induction fuel with
  | zero =>
    intro rem pos st bytes st' h
    cases rem with
    | zero =>
      injection h with h1 h2
      injection h1 with h1
      rw [← h1]
      rfl
    | succ rem => cases h
  | succ fuel ih =>
    intro rem pos st bytes st' h
    cases rem with
    | zero =>
      injection h with h1 h2
      injection h1 with h1
      rw [← h1]
      rfl
    | succ rem =>
      simp only [readLoop] at h
      split at h
      · cases h
      · rename_i ci st1 hloc
        split at h
        · cases h
        · rename_i rest st2 heq
          injection h with h1 h2
          injection h1 with h1
          have hrest := ih _ _ _ _ _ heq
          rw [← h1]
          rw [List.length_append, blockBytes_length, hrest]
          have : min (BLOCK_SIZE - pos % BLOCK_SIZE) (rem + 1) ≤ rem + 1 :=
            Nat.min_le_right _ _
          omega

/-- Claim C7: `vtpc_read` never returns bytes beyond the tracked size: with
the cursor at or past the tracked size it returns 0 without touching the
state; otherwise the count is clamped to (tracked size - cursor) and, unless
a backing-store read fails (-1), exactly the clamped number of bytes is
returned and the cursor advances by exactly that number, other handles
untouched. -/
theorem read_clamps_to_file_size (env : IOEnv) (st : SysState) (fd : Int)
    (count : Nat)
    (hok : ¬(fd < 0 ∨ (MAX_OPEN_FILES : Int) ≤ fd ∨
      (st.openFiles fd.toNat).os_fd = -1)) :
    ((st.openFiles fd.toNat).file_size
        ≤ (st.openFiles fd.toNat).current_offset →
      vtpc_read env st fd count = (0, [], st)) ∧
    ((st.openFiles fd.toNat).current_offset
        < (st.openFiles fd.toNat).file_size →
      (vtpc_read env st fd count).fst = -1 ∨
      ((vtpc_read env st fd count).fst = ((min count
          ((st.openFiles fd.toNat).file_size
            - (st.openFiles fd.toNat).current_offset) : Nat) : Int) ∧
       (vtpc_read env st fd count).snd.fst.length = min count
          ((st.openFiles fd.toNat).file_size
            - (st.openFiles fd.toNat).current_offset) ∧
       ((vtpc_read env st fd count).snd.snd.openFiles fd.toNat).current_offset
         = (st.openFiles fd.toNat).current_offset + min count
            ((st.openFiles fd.toNat).file_size
              - (st.openFiles fd.toNat).current_offset) ∧
       (∀ h, h ≠ fd.toNat →
         (vtpc_read env st fd count).snd.snd.openFiles h
           = st.openFiles h))) := by
  constructor
  · intro hle
    unfold vtpc_read
    rw [if_neg hok]
    dsimp only
    rw [if_pos hle]
  · intro hlt
    unfold vtpc_read
    rw [if_neg hok]
    dsimp only
    rw [if_neg (by omega)]
    split
    · rename_i st1 heq
      left
      rfl
    · rename_i bytes st1 heq
      right
      have hlen := readLoop_length env ((st.openFiles fd.toNat).os_fd)
        _ _ _ _ _ _ heq
      have hof := readLoop_openFiles env ((st.openFiles fd.toNat).os_fd)
        (min count ((st.openFiles fd.toNat).file_size
          - (st.openFiles fd.toNat).current_offset))
        (min count ((st.openFiles fd.toNat).file_size
          - (st.openFiles fd.toNat).current_offset))
        ((st.openFiles fd.toNat).current_offset) st
      rw [heq] at hof
      refine ⟨?_, ?_, ?_, ?_⟩
      · dsimp only
        rw [hlen]
      · dsimp only
        exact hlen
      · dsimp only
        rw [updF_self]
        dsimp only
        rw [hof.1, hlen]
      · intro h hh
        dsimp only
        rw [updF_other _ _ _ _ hh, hof.1]

/-- Witness for C7: reading with the cursor at the tracked size returns a
zero-length, non-error result with the state untouched. -/
theorem read_clamps_to_file_size_witness :
    vtpc_read noFaults stOneOpen 0 5 = (0, [], stOneOpen) :=
  (read_clamps_to_file_size noFaults stOneOpen 0 5 (by decide)).1 (by decide)

/-! ## Logical file content through the cache (claims C1 and C6) -/

/-- The logical content of byte `o` of descriptor `f`: the resident block's
byte if block `o / BLOCK_SIZE` is cached, else the backing store's byte. -/
def logicalByte (st : SysState) (f : Int) (o : Nat) : Nat :=
  match find_cache_block st f (o / BLOCK_SIZE) with
  | some ci => (st.cache ci).data (o % BLOCK_SIZE)
  | none => storeByte (st.files f.toNat) o

/-- The state is well formed for descriptor `f` with tracked size `s`: the
pool invariant holds, valid slots carry non-negative descriptors, clean
resident blocks of `f` agree with the backing store, and both resident
blocks and the backing store of `f` are zero at offsets at or past `s`. -/
def GoodF (st : SysState) (f : Int) (s : Nat) : Prop :=
  PoolInv st ∧
  (∀ i, i < CACHE_SIZE_BLOCKS → (st.cache i).valid = true →
    0 ≤ (st.cache i).fd) ∧
  (∀ i, i < CACHE_SIZE_BLOCKS → (st.cache i).valid = true →
    (st.cache i).fd = f → (st.cache i).dirty = false →
    ∀ j, j < BLOCK_SIZE →
      (st.cache i).data j
        = storeByte (st.files f.toNat)
            ((st.cache i).block_index * BLOCK_SIZE + j)) ∧
  (∀ i, i < CACHE_SIZE_BLOCKS → (st.cache i).valid = true →
    (st.cache i).fd = f →
    ∀ j, j < BLOCK_SIZE → s ≤ (st.cache i).block_index * BLOCK_SIZE + j →
      (st.cache i).data j = 0) ∧
  (∀ o, s ≤ o → storeByte (st.files f.toNat) o = 0)

theorem GoodF_mono {st : SysState} {f : Int} {s t : Nat} (hst : s ≤ t)
    (hg : GoodF st f s) : GoodF st f t := by
  obtain ⟨h1, h2, h3, h4, h5⟩ := hg
  refine ⟨h1, h2, h3, ?_, ?_⟩
  · intro i hi hv hfd j hj hsj
    exact h4 i hi hv hfd j hj (by omega)
  · intro o ho
    exact h5 o (by omega)

theorem offset_decomp (o : Nat) :
    (o / BLOCK_SIZE) * BLOCK_SIZE + o % BLOCK_SIZE = o := by
  rw [Nat.mul_comm]
  exact Nat.div_add_mod o BLOCK_SIZE

theorem block_offset_div {b j : Nat} (hj : j < BLOCK_SIZE) :
    (b * BLOCK_SIZE + j) / BLOCK_SIZE = b ∧
    (b * BLOCK_SIZE + j) % BLOCK_SIZE = j := by
  simp only [BLOCK_SIZE] at hj ⊢
  omega

theorem logicalByte_of_match {st : SysState} {f : Int} {o i : Nat}
    (hinv : PoolInv st) (hi : i < CACHE_SIZE_BLOCKS)
    (hm : cacheMatch st.cache i f (o / BLOCK_SIZE)) :
    logicalByte st f o = (st.cache i).data (o % BLOCK_SIZE) := by
  unfold logicalByte
  cases hfind : find_cache_block st f (o / BLOCK_SIZE) with
  | none => exact absurd hm (find_cache_block_none_match hfind i hi)
  | some ci =>
    obtain ⟨hci, hmci⟩ := find_cache_block_some_match hfind
    rw [hinv f (o / BLOCK_SIZE) ci i hci hi hmci hm]

theorem logicalByte_of_nomatch {st : SysState} {f : Int} {o : Nat}
    (hno : ∀ i, i < CACHE_SIZE_BLOCKS →
      ¬cacheMatch st.cache i f (o / BLOCK_SIZE)) :
    logicalByte st f o = storeByte (st.files f.toNat) o := by
  unfold logicalByte
  cases hfind : find_cache_block st f (o / BLOCK_SIZE) with
  | none => rfl
  | some ci =>
    obtain ⟨hci, hmci⟩ := find_cache_block_some_match hfind
    exact absurd hmci (hno ci hci)

theorem populateFromStore_eq_storeByte (file : RawFile) (b : Nat) :
    ∀ j, j < BLOCK_SIZE →
      populateFromStore file (b * BLOCK_SIZE)
        (min BLOCK_SIZE (file.len - b * BLOCK_SIZE)) j
        = storeByte file (b * BLOCK_SIZE + j) := by
  intro j hj
  unfold populateFromStore storeByte
  by_cases hr : j < min BLOCK_SIZE (file.len - b * BLOCK_SIZE)
  · rw [if_pos hr, if_pos (by omega)]
  · rw [if_neg hr, if_neg (by omega)]

theorem div_eq_iff_inBlockRange {b o : Nat} :
    o / BLOCK_SIZE = b ↔ inBlockRange b o := by
  unfold inBlockRange
  simp only [BLOCK_SIZE]
  omega

theorem cacheMatch_invalidateSlot {st1 : SysState} {c i : Nat} {g : Int}
    {bi : Nat} :
    cacheMatch (invalidateSlot st1 c).cache i g bi ↔
      i ≠ c ∧ cacheMatch st1.cache i g bi := by
  unfold invalidateSlot cacheMatch
  dsimp only
  by_cases hic : i = c
  · subst hic
    rw [updF_self]
    simp
  · rw [updF_other _ _ _ _ hic]
    simp [hic]

theorem invalidateSlot_cache_other {st1 : SysState} {c i : Nat} (h : i ≠ c) :
    (invalidateSlot st1 c).cache i = st1.cache i := by
  unfold invalidateSlot
  dsimp only
  rw [updF_other _ _ _ _ h]

/-- Invalidating a valid slot `c` preserves well-formedness and the logical
bytes of `f`, provided the backing store of `f` already holds `c`'s contents
wherever `c`'s block identity is about to be forgotten (either because the
dirty block was just flushed there, or because the block was clean and
coherent). -/
theorem invalidate_preserves (st st1 : SysState) (c : Nat) (f : Int) (s : Nat)
    (hg : GoodF st f s)
    (hcache : st1.cache = st.cache)
    (hcN : c < CACHE_SIZE_BLOCKS) (hcvalid : (st.cache c).valid = true)
    (hpinv2 : PoolInv (invalidateSlot st1 c))
    (hfr : ∀ o, ¬((st.cache c).fd = f ∧
        inBlockRange (st.cache c).block_index o) →
      storeByte (st1.files f.toNat) o = storeByte (st.files f.toNat) o)
    (hcc : ∀ o, (st.cache c).fd = f →
      inBlockRange (st.cache c).block_index o →
      storeByte (st1.files f.toNat) o
        = (st.cache c).data (o - (st.cache c).block_index * BLOCK_SIZE)) :
    GoodF (invalidateSlot st1 c) f s ∧
    (∀ o, logicalByte (invalidateSlot st1 c) f o = logicalByte st f o) := by
  obtain ⟨hinv, hB, hC, hD, hE⟩ := hg
  have hfiles2 : (invalidateSlot st1 c).files = st1.files := rfl
  have hstore_s : ∀ o, s ≤ o → storeByte (st1.files f.toNat) o = 0 := by
    intro o ho
    by_cases hcb : (st.cache c).fd = f ∧
        inBlockRange (st.cache c).block_index o
    · rw [hcc o hcb.1 hcb.2]
      have hrange := hcb.2
      unfold inBlockRange at hrange
      exact hD c hcN hcvalid hcb.1 (o - (st.cache c).block_index * BLOCK_SIZE)
        (by omega) (by omega)
    · rw [hfr o hcb]
      exact hE o ho
  refine ⟨⟨hpinv2, ?_, ?_, ?_, ?_⟩, ?_⟩
  · intro i hi hv
    by_cases hic : i = c
    · subst hic
      rw [invalidateSlot] at hv
      dsimp only at hv
      rw [updF_self] at hv
      cases hv
    · rw [invalidateSlot_cache_other hic, hcache] at hv ⊢
      exact hB i hi hv
  · intro i hi hv hfd hcl j hj
    by_cases hic : i = c
    · subst hic
      rw [invalidateSlot] at hv
      dsimp only at hv
      rw [updF_self] at hv
      cases hv
    · rw [invalidateSlot_cache_other hic, hcache] at hv hfd hcl ⊢
      rw [hfiles2]
      have hstep : storeByte (st1.files f.toNat)
          ((st.cache i).block_index * BLOCK_SIZE + j)
          = storeByte (st.files f.toNat)
            ((st.cache i).block_index * BLOCK_SIZE + j) := by
        apply hfr
        rintro ⟨hcf, hrange⟩
        have hbi : (st.cache i).block_index ≠ (st.cache c).block_index := by
          intro hbeq
          apply hic
          exact hinv f (st.cache i).block_index i c hi hcN
            ⟨hv, hfd, rfl⟩ ⟨hcvalid, hcf, by rw [hbeq]⟩
        exact inBlockRange_disjoint hbi ⟨Nat.le_add_right _ _, by omega⟩ hrange
      rw [hstep]
      exact hC i hi hv hfd hcl j hj
  · intro i hi hv hfd j hj hsj
    by_cases hic : i = c
    · subst hic
      rw [invalidateSlot] at hv
      dsimp only at hv
      rw [updF_self] at hv
      cases hv
    · rw [invalidateSlot_cache_other hic, hcache] at hv hfd hsj ⊢
      exact hD i hi hv hfd j hj hsj
  · intro o ho
    rw [hfiles2]
    exact hstore_s o ho
  · intro o
    by_cases hcm : (st.cache c).fd = f ∧ (st.cache c).block_index = o / BLOCK_SIZE
    · -- slot c matched this block in st; afterwards nobody does
      have hmc : cacheMatch st.cache c f (o / BLOCK_SIZE) :=
        ⟨hcvalid, hcm.1, hcm.2⟩
      have hno : ∀ i, i < CACHE_SIZE_BLOCKS →
          ¬cacheMatch (invalidateSlot st1 c).cache i f (o / BLOCK_SIZE) := by
        intro i hi hm2
        obtain ⟨hic, hm1⟩ := cacheMatch_invalidateSlot.1 hm2
        rw [hcache] at hm1
        exact hic (hinv f (o / BLOCK_SIZE) i c hi hcN hm1 hmc)
      rw [logicalByte_of_nomatch hno,
        logicalByte_of_match hinv hcN hmc, hfiles2]
      have hrange : inBlockRange (st.cache c).block_index o := by
        rw [hcm.2]
        exact div_eq_iff_inBlockRange.1 rfl
      rw [hcc o hcm.1 hrange, hcm.2]
      congr 1
      have := offset_decomp o
      omega
    · -- slot c is irrelevant to this block
      by_cases hex : ∃ i, i < CACHE_SIZE_BLOCKS ∧
          cacheMatch st.cache i f (o / BLOCK_SIZE)
      · obtain ⟨i, hi, hmi⟩ := hex
        have hic : i ≠ c := by
          intro hic
          subst hic
          exact hcm ⟨hmi.2.1, hmi.2.2⟩
        have hm2 : cacheMatch (invalidateSlot st1 c).cache i f
            (o / BLOCK_SIZE) := by
          rw [cacheMatch_invalidateSlot, hcache]
          exact ⟨hic, hmi⟩
        rw [logicalByte_of_match hpinv2 hi hm2,
          logicalByte_of_match hinv hi hmi,
          invalidateSlot_cache_other hic, hcache]
      · have hno1 : ∀ i, i < CACHE_SIZE_BLOCKS →
            ¬cacheMatch st.cache i f (o / BLOCK_SIZE) := by
          intro i hi hm
          exact hex ⟨i, hi, hm⟩
        have hno2 : ∀ i, i < CACHE_SIZE_BLOCKS →
            ¬cacheMatch (invalidateSlot st1 c).cache i f (o / BLOCK_SIZE) := by
          intro i hi hm2
          obtain ⟨hic, hm1⟩ := cacheMatch_invalidateSlot.1 hm2
          rw [hcache] at hm1
          exact hno1 i hi hm1
        rw [logicalByte_of_nomatch hno2, logicalByte_of_nomatch hno1, hfiles2]
        apply hfr
        rintro ⟨hcf, hrange⟩
        exact hno1 c hcN ⟨hcvalid, hcf, (div_eq_iff_inBlockRange.2 hrange).symm⟩

theorem evict_preserves (env : IOEnv) (st : SysState) (f : Int) (s : Nat)
    (hfnn : 0 ≤ f) (hwf : env.writesFail f.toNat = false) (hg : GoodF st f s) :
    GoodF (evict_block env st).snd f s ∧
    (∀ o, logicalByte (evict_block env st).snd f o = logicalByte st f o) ∧
    ((evict_block env st).snd.cache (evict_block env st).fst).valid = false := by
  have hpinv := evict_block_PoolInv env st hg.1
  cases hscan : evictScan st.cache 0 none 0 CACHE_SIZE_BLOCKS with
  | inl j =>
    have heb : evict_block env st = (j, st) := by
      unfold evict_block
      rw [hscan]
    rw [heb]
    exact ⟨hg, fun o => rfl, (evictScan_inl hscan).2.2.1⟩
  | inr o0 =>
    cases o0 with
    | none => exact absurd hscan (evictScan_top_ne_none st.cache)
    | some c =>
      have hrange := evictScan_inr_some hscan
      have hcN : c < CACHE_SIZE_BLOCKS := by
        rcases hrange with h | ⟨h1, h2, h3⟩
        · cases h
        · omega
      have hcvalid : (st.cache c).valid = true := by
        rcases hrange with h | ⟨h1, h2, h3⟩
        · cases h
        · exact h3
      by_cases hdirty : (st.cache c).dirty = true
      · by_cases hcf : (st.cache c).fd = f
        · obtain ⟨file1, hpw, hin, hout, hsync, hlen⟩ :=
            pwriteFile_ok hwf (st.files f.toNat)
              ((st.cache c).block_index * BLOCK_SIZE) (st.cache c).data
              BLOCK_SIZE
          have heb : evict_block env st = (c, invalidateSlot
              { st with files := updF st.files f.toNat file1 } c) := by
            unfold evict_block
            simp only [hscan]
            rw [if_pos hdirty, hcf]
            simp only [hpw]
          rw [heb] at hpinv ⊢
          have hmain := invalidate_preserves st
            { st with files := updF st.files f.toNat file1 } c f s hg rfl
            hcN hcvalid hpinv ?_ ?_
          · refine ⟨hmain.1, hmain.2, ?_⟩
            rw [invalidateSlot]
            dsimp only
            rw [updF_self]
          · intro o hno
            dsimp only
            rw [updF_self]
            apply hout
            intro hcon
            exact hno ⟨hcf, hcon.1, hcon.2⟩
          · intro o hcf2 hrange2
            dsimp only
            rw [updF_self]
            exact hin o hrange2.1 hrange2.2
        · have hgnn : 0 ≤ (st.cache c).fd := hg.2.1 c hcN hcvalid
          have hne : f.toNat ≠ ((st.cache c).fd).toNat := by
            intro hcon
            apply hcf
            omega
          cases hpw : pwriteFile env ((st.cache c).fd).toNat
              (st.files ((st.cache c).fd).toNat)
              ((st.cache c).block_index * BLOCK_SIZE) (st.cache c).data
              BLOCK_SIZE with
          | none =>
            have heb : evict_block env st = (c, invalidateSlot st c) := by
              unfold evict_block
              simp only [hscan]
              rw [if_pos hdirty]
              simp only [hpw]
            rw [heb] at hpinv ⊢
            have hmain := invalidate_preserves st st c f s hg rfl
              hcN hcvalid hpinv (fun o _ => rfl)
              (fun o hcf2 _ => absurd hcf2 hcf)
            refine ⟨hmain.1, hmain.2, ?_⟩
            rw [invalidateSlot]
            dsimp only
            rw [updF_self]
          | some file1 =>
            have heb : evict_block env st = (c, invalidateSlot
                { st with
                  files := updF st.files ((st.cache c).fd).toNat file1 }
                c) := by
              unfold evict_block
              simp only [hscan]
              rw [if_pos hdirty]
              simp only [hpw]
            rw [heb] at hpinv ⊢
            have hmain := invalidate_preserves st
              { st with files := updF st.files ((st.cache c).fd).toNat file1 }
              c f s hg rfl hcN hcvalid hpinv ?_
              (fun o hcf2 _ => absurd hcf2 hcf)
            · refine ⟨hmain.1, hmain.2, ?_⟩
              rw [invalidateSlot]
              dsimp only
              rw [updF_self]
            · intro o _
              dsimp only
              rw [updF_other _ _ _ _ hne]
      · have heb : evict_block env st = (c, invalidateSlot st c) := by
          unfold evict_block
          simp only [hscan]
          rw [if_neg hdirty]
        rw [heb] at hpinv ⊢
        have hcl : (st.cache c).dirty = false := by
          revert hdirty
          cases (st.cache c).dirty <;> simp
        have hmain := invalidate_preserves st st c f s hg rfl
          hcN hcvalid hpinv (fun o _ => rfl) ?_
        · refine ⟨hmain.1, hmain.2, ?_⟩
          rw [invalidateSlot]
          dsimp only
          rw [updF_self]
        · intro o hcf2 hrange2
          obtain ⟨h1, h2⟩ := hrange2
          have := hg.2.2.1 c hcN hcvalid hcf2 hcl
            (o - (st.cache c).block_index * BLOCK_SIZE) (by omega)
          rw [this]
          congr 1
          omega

theorem cacheMatch_populate {cache : Nat → CacheBlock} {ci : Nat}
    {d : Nat → Nat} {dr : Bool} {fr : Nat} {f : Int} {blockIdx : Nat}
    {i : Nat} {g : Int} {bi : Nat} :
    cacheMatch (updF cache ci
      ({ data := d, fd := f, block_index := blockIdx, dirty := dr,
         frequency := fr, valid := true })) i g bi ↔
      (i = ci ∧ g = f ∧ bi = blockIdx) ∨
      (i ≠ ci ∧ cacheMatch cache i g bi) := by
  unfold cacheMatch
  by_cases hic : i = ci
  · subst hic
    rw [updF_self]
    dsimp only
    constructor
    · rintro ⟨_, h2, h3⟩
      exact Or.inl ⟨rfl, h2.symm, h3.symm⟩
    · rintro (⟨_, h2, h3⟩ | ⟨hne, _⟩)
      · exact ⟨rfl, h2.symm, h3.symm⟩
      · exact absurd rfl hne
  · rw [updF_other _ _ _ _ hic]
    constructor
    · intro h
      exact Or.inr ⟨hic, h⟩
    · rintro (⟨he, _⟩ | ⟨_, h⟩)
      · exact absurd he hic
      · exact h

theorem populate_preserves (stE st1 : SysState) (f : Int) (s : Nat)
    (blockIdx ci : Nat) (hgE : GoodF stE f s) (hfnn : 0 ≤ f)
    (hciN : ci < CACHE_SIZE_BLOCKS)
    (hslot : (stE.cache ci).valid = false)
    (hnomatch : ∀ i, i < CACHE_SIZE_BLOCKS →
      ¬cacheMatch stE.cache i f blockIdx)
    (d : Nat → Nat)
    (hd : ∀ j, j < BLOCK_SIZE →
      d j = storeByte (stE.files f.toNat) (blockIdx * BLOCK_SIZE + j))
    (hst1 : st1 = { stE with
      cache := updF stE.cache ci
        ({ data := d, fd := f, block_index := blockIdx, dirty := false,
           frequency := 1, valid := true }) }) :
    GoodF st1 f s ∧
    (∀ o, logicalByte st1 f o = logicalByte stE f o) ∧
    cacheMatch st1.cache ci f blockIdx := by
  obtain ⟨hinv, hB, hC, hD, hE⟩ := hgE
  have hinv1 : PoolInv st1 := by
    rw [hst1]
    exact PoolInv_populate hinv hnomatch (fun i g bi h => h) ci d false 1
  have hcache_other : ∀ i, i ≠ ci → st1.cache i = stE.cache i := by
    intro i hi
    rw [hst1]
    dsimp only
    rw [updF_other _ _ _ _ hi]
  have hcache_ci : st1.cache ci =
      ({ data := d, fd := f, block_index := blockIdx, dirty := false,
         frequency := 1, valid := true }) := by
    rw [hst1]
    dsimp only
    rw [updF_self]
  have hfiles : st1.files = stE.files := by
    rw [hst1]
  have hmatch1 : ∀ i g bi, cacheMatch st1.cache i g bi ↔
      (i = ci ∧ g = f ∧ bi = blockIdx) ∨
      (i ≠ ci ∧ cacheMatch stE.cache i g bi) := by
    intro i g bi
    rw [hst1]
    exact cacheMatch_populate
  have hmci : cacheMatch st1.cache ci f blockIdx := by
    rw [hmatch1]
    exact Or.inl ⟨rfl, rfl, rfl⟩
  refine ⟨⟨hinv1, ?_, ?_, ?_, ?_⟩, ?_, hmci⟩
  · intro i hi hv
    by_cases hic : i = ci
    · subst hic
      rw [hcache_ci]
      exact hfnn
    · rw [hcache_other i hic] at hv ⊢
      exact hB i hi hv
  · intro i hi hv hfd hcl j hj
    by_cases hic : i = ci
    · subst hic
      rw [hcache_ci] at hv hfd hcl ⊢
      dsimp only
      rw [hfiles]
      exact hd j hj
    · rw [hcache_other i hic] at hv hfd hcl ⊢
      rw [hfiles]
      exact hC i hi hv hfd hcl j hj
  · intro i hi hv hfd j hj hsj
    by_cases hic : i = ci
    · subst hic
      rw [hcache_ci] at hv hfd hsj ⊢
      dsimp only
      dsimp only at hsj
      rw [hd j hj, hE _ hsj]
    · rw [hcache_other i hic] at hv hfd hsj ⊢
      exact hD i hi hv hfd j hj hsj
  · intro o ho
    rw [hfiles]
    exact hE o ho
  · intro o
    by_cases hb : o / BLOCK_SIZE = blockIdx
    · have hno : ∀ i, i < CACHE_SIZE_BLOCKS →
          ¬cacheMatch stE.cache i f (o / BLOCK_SIZE) := by
        rw [hb]
        exact hnomatch
      rw [logicalByte_of_nomatch hno]
      have hm : cacheMatch st1.cache ci f (o / BLOCK_SIZE) := by
        rw [hb]
        exact hmci
      rw [logicalByte_of_match hinv1 hciN hm, hcache_ci]
      dsimp only
      rw [hd (o % BLOCK_SIZE) (Nat.mod_lt o (by decide))]
      rw [← hb]
      congr 1
      have := offset_decomp o
      omega
    · by_cases hex : ∃ i, i < CACHE_SIZE_BLOCKS ∧
          cacheMatch stE.cache i f (o / BLOCK_SIZE)
      · obtain ⟨i, hi, hmi⟩ := hex
        have hic : i ≠ ci := by
          intro hic
          rw [hic] at hmi
          exact absurd hmi.1 (by rw [hslot]; decide)
        have hm1 : cacheMatch st1.cache i f (o / BLOCK_SIZE) := by
          rw [hmatch1]
          exact Or.inr ⟨hic, hmi⟩
        rw [logicalByte_of_match hinv1 hi hm1, logicalByte_of_match hinv hi hmi,
          hcache_other i hic]
      · have hno : ∀ i, i < CACHE_SIZE_BLOCKS →
            ¬cacheMatch stE.cache i f (o / BLOCK_SIZE) := by
          intro i hi hm
          exact hex ⟨i, hi, hm⟩
        have hno1 : ∀ i, i < CACHE_SIZE_BLOCKS →
            ¬cacheMatch st1.cache i f (o / BLOCK_SIZE) := by
          intro i hi hm
          rw [hmatch1] at hm
          rcases hm with ⟨_, _, hbi⟩ | ⟨hic, hm⟩
          · exact hb hbi
          · exact hno i hi hm
        rw [logicalByte_of_nomatch hno, logicalByte_of_nomatch hno1, hfiles]

theorem findLoop_congr {c1 c2 : Nat → CacheBlock}
    (h : ∀ i, (c2 i).valid = (c1 i).valid ∧ (c2 i).fd = (c1 i).fd ∧
      (c2 i).block_index = (c1 i).block_index) :
    ∀ fuel i f bi, findLoop c2 f bi i fuel = findLoop c1 f bi i fuel := by
  intro fuel
  induction fuel with
  | zero =>
    intro i f bi
    rfl
  | succ n ih =>
    intro i f bi
    simp only [findLoop, (h i).1, (h i).2.1, (h i).2.2, ih]

theorem bump_preserves (st st1 : SysState) (f : Int) (s : Nat) (ci fr : Nat)
    (hg : GoodF st f s)
    (hst1 : st1 = { st with
      cache := updF st.cache ci
        ({ st.cache ci with frequency := fr }) }) :
    GoodF st1 f s ∧ (∀ o, logicalByte st1 f o = logicalByte st f o) := by
  obtain ⟨hinv, hB, hC, hD, hE⟩ := hg
  have hfield : ∀ i, (st1.cache i).valid = (st.cache i).valid ∧
      (st1.cache i).fd = (st.cache i).fd ∧
      (st1.cache i).block_index = (st.cache i).block_index ∧
      (st1.cache i).dirty = (st.cache i).dirty ∧
      (st1.cache i).data = (st.cache i).data := by
    intro i
    rw [hst1]
    dsimp only
    by_cases hic : i = ci
    · subst hic
      rw [updF_self]
      exact ⟨rfl, rfl, rfl, rfl, rfl⟩
    · rw [updF_other _ _ _ _ hic]
      exact ⟨rfl, rfl, rfl, rfl, rfl⟩
  have hfiles : st1.files = st.files := by
    rw [hst1]
  have hmatch : ∀ i g bi, cacheMatch st1.cache i g bi ↔
      cacheMatch st.cache i g bi := by
    intro i g bi
    unfold cacheMatch
    rw [(hfield i).1, (hfield i).2.1, (hfield i).2.2.1]
  have hfindeq : ∀ bi, find_cache_block st1 f bi = find_cache_block st f bi := by
    intro bi
    unfold find_cache_block
    exact findLoop_congr
      (fun i => ⟨(hfield i).1, (hfield i).2.1, (hfield i).2.2.1⟩)
      CACHE_SIZE_BLOCKS 0 f bi
  refine ⟨⟨?_, ?_, ?_, ?_, ?_⟩, ?_⟩
  · intro g bi i j hi hj hmi hmj
    exact hinv g bi i j hi hj ((hmatch i g bi).mp hmi) ((hmatch j g bi).mp hmj)
  · intro i hi hv
    rw [(hfield i).1] at hv
    rw [(hfield i).2.1]
    exact hB i hi hv
  · intro i hi hv hfd hcl j hj
    rw [(hfield i).1] at hv
    rw [(hfield i).2.1] at hfd
    rw [(hfield i).2.2.2.1] at hcl
    rw [(hfield i).2.2.2.2, (hfield i).2.2.1, hfiles]
    exact hC i hi hv hfd hcl j hj
  · intro i hi hv hfd j hj hsj
    rw [(hfield i).1] at hv
    rw [(hfield i).2.1] at hfd
    rw [(hfield i).2.2.1] at hsj
    rw [(hfield i).2.2.2.2]
    exact hD i hi hv hfd j hj hsj
  · intro o ho
    rw [hfiles]
    exact hE o ho
  · intro o
    unfold logicalByte
    rw [hfindeq]
    cases find_cache_block st f (o / BLOCK_SIZE) with
    | some ci2 =>
      dsimp only
      rw [(hfield ci2).2.2.2.2]
    | none =>
      dsimp only
      rw [hfiles]

theorem readLocate_preserves (env : IOEnv) (st : SysState) (f : Int)
    (blockIdx s : Nat) (hfnn : 0 ≤ f)
    (hwf : env.writesFail f.toNat = false)
    (hrf : env.readsFail f.toNat = false) (hg : GoodF st f s) :
    ∃ ci st1, readLocate env st f blockIdx = Sum.inr (ci, st1) ∧
      GoodF st1 f s ∧
      (∀ o, logicalByte st1 f o = logicalByte st f o) ∧
      st1.openFiles = st.openFiles ∧
      st1.errno = st.errno ∧
      ci < CACHE_SIZE_BLOCKS ∧
      cacheMatch st1.cache ci f blockIdx ∧
      (∀ j, j < BLOCK_SIZE →
        (st1.cache ci).data j
          = logicalByte st f (blockIdx * BLOCK_SIZE + j)) := by
  cases hfind : find_cache_block st f blockIdx with
  | some ci =>
    obtain ⟨hciN, hmci⟩ := find_cache_block_some_match hfind
    have hb := bump_preserves st
      ({ st with
        cache := updF st.cache ci
          ({ st.cache ci with
            frequency := (st.cache ci).frequency + 1 }) })
      f s ci ((st.cache ci).frequency + 1) hg rfl
    refine ⟨ci, _, ?_, hb.1, hb.2, rfl, rfl, hciN, ?_, ?_⟩
    · unfold readLocate
      rw [hfind]
    · unfold cacheMatch at hmci ⊢
      dsimp only
      rw [updF_self]
      exact hmci
    · intro j hj
      have hm2 : cacheMatch st.cache ci f
          ((blockIdx * BLOCK_SIZE + j) / BLOCK_SIZE) := by
        rw [(block_offset_div hj).1]
        exact hmci
      rw [logicalByte_of_match hg.1 hciN hm2, (block_offset_div hj).2]
      dsimp only
      rw [updF_self]
  | none =>
    have hnom := find_cache_block_none_match hfind
    obtain ⟨hgE, hlbE, hslotE⟩ := evict_preserves env st f s hfnn hwf hg
    have hnomE : ∀ i, i < CACHE_SIZE_BLOCKS →
        ¬cacheMatch (evict_block env st).snd.cache i f blockIdx := by
      intro i hi hm
      exact hnom i hi (evict_block_match_sub env st i f blockIdx hm)
    have hpread : preadLen env f.toNat ((evict_block env st).snd.files f.toNat)
        (blockIdx * BLOCK_SIZE) BLOCK_SIZE
        = some (min BLOCK_SIZE
            (((evict_block env st).snd.files f.toNat).len
              - blockIdx * BLOCK_SIZE)) := by
      unfold preadLen
      rw [hrf]
      rfl
    have hd : ∀ j, j < BLOCK_SIZE →
        populateFromStore ((evict_block env st).snd.files f.toNat)
          (blockIdx * BLOCK_SIZE)
          (min BLOCK_SIZE
            (((evict_block env st).snd.files f.toNat).len
              - blockIdx * BLOCK_SIZE)) j
          = storeByte ((evict_block env st).snd.files f.toNat)
              (blockIdx * BLOCK_SIZE + j) :=
      populateFromStore_eq_storeByte ((evict_block env st).snd.files f.toNat)
        blockIdx
    have hpop := populate_preserves (evict_block env st).snd
      ({ (evict_block env st).snd with
        cache := updF (evict_block env st).snd.cache (evict_block env st).fst
          ({ data := populateFromStore ((evict_block env st).snd.files f.toNat)
              (blockIdx * BLOCK_SIZE)
              (min BLOCK_SIZE
                (((evict_block env st).snd.files f.toNat).len
                  - blockIdx * BLOCK_SIZE)),
             fd := f, block_index := blockIdx, dirty := false, frequency := 1,
             valid := true }) })
      f s blockIdx (evict_block env st).fst hgE hfnn
      (evict_block_fst_lt env st) hslotE hnomE
      (populateFromStore ((evict_block env st).snd.files f.toNat)
        (blockIdx * BLOCK_SIZE)
        (min BLOCK_SIZE
          (((evict_block env st).snd.files f.toNat).len
            - blockIdx * BLOCK_SIZE)))
      hd rfl
    refine ⟨(evict_block env st).fst, _, ?_, hpop.1,
      (fun o => (hpop.2.1 o).trans (hlbE o)), ?_, ?_,
      evict_block_fst_lt env st, hpop.2.2, ?_⟩
    · unfold readLocate
      rw [hfind]
      dsimp only
      rw [hpread]
    · dsimp only
      exact evict_block_openFiles env st
    · dsimp only
      exact evict_block_errno env st
    · intro j hj
      dsimp only
      rw [updF_self]
      dsimp only
      rw [hd j hj]
      rw [← hlbE (blockIdx * BLOCK_SIZE + j)]
      have hnoj : ∀ i, i < CACHE_SIZE_BLOCKS →
          ¬cacheMatch (evict_block env st).snd.cache i f
            ((blockIdx * BLOCK_SIZE + j) / BLOCK_SIZE) := by
        rw [(block_offset_div hj).1]
        exact hnomE
      rw [logicalByte_of_nomatch hnoj]

theorem blockBytes_getD (d : Nat → Nat) (off n k : Nat) (hk : k < n) :
    (blockBytes d off n).getD k 0 = d (off + k) := by
  unfold blockBytes
  rw [List.getD_eq_getElem?_getD, List.getElem?_map, List.getElem?_range hk]
  rfl

theorem getD_append_lt {a b : List Nat} {k : Nat} (h : k < a.length) :
    (a ++ b).getD k 0 = a.getD k 0 := by
  rw [List.getD_eq_getElem?_getD, List.getD_eq_getElem?_getD,
    List.getElem?_append, if_pos h]

theorem getD_append_ge {a b : List Nat} {k : Nat} (h : a.length ≤ k) :
    (a ++ b).getD k 0 = b.getD (k - a.length) 0 := by
  rw [List.getD_eq_getElem?_getD, List.getD_eq_getElem?_getD,
    List.getElem?_append_right h]

theorem readLoop_correct (env : IOEnv) (f : Int) (s : Nat)
    (hfnn : 0 ≤ f) (hwf : env.writesFail f.toNat = false)
    (hrf : env.readsFail f.toNat = false) :
    ∀ fuel remaining st pos, remaining ≤ fuel → GoodF st f s →
      ∃ bytes st2, readLoop env st f pos remaining fuel = (some bytes, st2) ∧
        bytes.length = remaining ∧
        (∀ k, k < remaining → bytes.getD k 0 = logicalByte st f (pos + k)) ∧
        GoodF st2 f s ∧
        (∀ o, logicalByte st2 f o = logicalByte st f o) ∧
        st2.openFiles = st.openFiles ∧ st2.errno = st.errno := by
  intro fuel
  induction fuel with
  | zero =>
    intro remaining st pos hrem hg
    have h0 : remaining = 0 := Nat.le_zero.mp hrem
    subst h0
    exact ⟨[], st, rfl, rfl, fun k hk => absurd hk (by omega), hg,
      fun o => rfl, rfl, rfl⟩
  | succ n ih =>
    intro remaining st pos hrem hg
    cases remaining with
    | zero =>
      exact ⟨[], st, rfl, rfl, fun k hk => absurd hk (by omega), hg,
        fun o => rfl, rfl, rfl⟩
    | succ rem =>
      obtain ⟨ci, st1, hloc, hg1, hlb1, hof1, herr1, hciN, hmci, hdata⟩ :=
        readLocate_preserves env st f (pos / BLOCK_SIZE) s hfnn hwf hrf hg
      have hmodlt : pos % BLOCK_SIZE < BLOCK_SIZE :=
        Nat.mod_lt pos (by decide)
      have htc1 : 1 ≤ min (BLOCK_SIZE - pos % BLOCK_SIZE) (rem + 1) := by
        omega
      obtain ⟨rest, st2, hrec, hlen, hval, hg2, hlb2, hof2, herr2⟩ :=
        ih (rem + 1 - min (BLOCK_SIZE - pos % BLOCK_SIZE) (rem + 1)) st1
          (pos + min (BLOCK_SIZE - pos % BLOCK_SIZE) (rem + 1))
          (by omega) hg1
      refine ⟨blockBytes ((st1.cache ci).data) (pos % BLOCK_SIZE)
          (min (BLOCK_SIZE - pos % BLOCK_SIZE) (rem + 1)) ++ rest,
        st2, ?_, ?_, ?_, hg2, (fun o => (hlb2 o).trans (hlb1 o)),
        (hof2.trans hof1), (herr2.trans herr1)⟩
      · simp only [readLoop]
        rw [hloc]
        dsimp only
        rw [hrec]
      · rw [List.length_append, blockBytes_length, hlen]
        omega
      · intro k hk
        by_cases hkc : k < min (BLOCK_SIZE - pos % BLOCK_SIZE) (rem + 1)
        · rw [getD_append_lt (by rw [blockBytes_length]; exact hkc),
            blockBytes_getD _ _ _ _ hkc]
          have hj : pos % BLOCK_SIZE + k < BLOCK_SIZE := by
            omega
          rw [hdata _ hj]
          congr 1
          have := offset_decomp pos
          omega
        · rw [getD_append_ge (by rw [blockBytes_length]; omega)]
          rw [blockBytes_length]
          rw [hval (k - min (BLOCK_SIZE - pos % BLOCK_SIZE) (rem + 1))
            (by omega)]
          rw [hlb1]
          congr 1
          omega

theorem logicalByte_cache_files {st stw : SysState}
    (hc : stw.cache = st.cache) (hf : stw.files = st.files) :
    ∀ f o, logicalByte stw f o = logicalByte st f o := by
  intro f o
  unfold logicalByte find_cache_block
  rw [hc, hf]

theorem GoodF_cache_files {st stw : SysState} (hc : stw.cache = st.cache)
    (hf : stw.files = st.files) {f : Int} {s : Nat} (hg : GoodF st f s) :
    GoodF stw f s := by
  obtain ⟨h1, h2, h3, h4, h5⟩ := hg
  refine ⟨?_, ?_, ?_, ?_, ?_⟩
  · unfold PoolInv
    rw [hc]
    exact h1
  · rw [hc]
    exact h2
  · rw [hc, hf]
    exact h3
  · rw [hc]
    exact h4
  · rw [hf]
    exact h5

theorem vtpc_read_correct (env : IOEnv) (st : SysState) (fd : Int)
    (count s : Nat) (hfd0 : 0 ≤ fd) (hfdM : fd < (MAX_OPEN_FILES : Int))
    (hosfd : (st.openFiles fd.toNat).os_fd ≠ -1)
    (hfnn : 0 ≤ (st.openFiles fd.toNat).os_fd)
    (hwf : env.writesFail (st.openFiles fd.toNat).os_fd.toNat = false)
    (hrf : env.readsFail (st.openFiles fd.toNat).os_fd.toNat = false)
    (hs : (st.openFiles fd.toNat).file_size = s)
    (hg : GoodF st (st.openFiles fd.toNat).os_fd s) :
    ∃ bytes st2,
      vtpc_read env st fd count
        = (((min count
            (s - (st.openFiles fd.toNat).current_offset) : Nat) : Int),
          bytes, st2) ∧
      bytes.length
        = min count (s - (st.openFiles fd.toNat).current_offset) ∧
      (∀ k, k < bytes.length →
        bytes.getD k 0
          = logicalByte st (st.openFiles fd.toNat).os_fd
              ((st.openFiles fd.toNat).current_offset + k)) ∧
      GoodF st2 (st.openFiles fd.toNat).os_fd s ∧
      (∀ o, logicalByte st2 (st.openFiles fd.toNat).os_fd o
        = logicalByte st (st.openFiles fd.toNat).os_fd o) ∧
      st2.openFiles = updF st.openFiles fd.toNat
        ({ st.openFiles fd.toNat with
          current_offset := (st.openFiles fd.toNat).current_offset
            + min count (s - (st.openFiles fd.toNat).current_offset) }) ∧
      st2.errno = st.errno := by
  have hguard : ¬(fd < 0 ∨ (MAX_OPEN_FILES : Int) ≤ fd ∨
      (st.openFiles fd.toNat).os_fd = -1) := by
    push_neg
    exact ⟨by omega, by omega, hosfd⟩
  by_cases hcs : (st.openFiles fd.toNat).file_size
      ≤ (st.openFiles fd.toNat).current_offset
  · have hmin0 : min count
        (s - (st.openFiles fd.toNat).current_offset) = 0 := by
      omega
    refine ⟨[], st, ?_, ?_, ?_, hg, fun o => rfl, ?_, rfl⟩
    · unfold vtpc_read
      rw [if_neg hguard]
      dsimp only
      rw [if_pos hcs, hmin0]
      rfl
    · rw [hmin0]
      rfl
    · intro k hk
      exact absurd hk (by simp)
    · rw [hmin0]
      funext j
      by_cases hj : j = fd.toNat
      · subst hj
        rw [updF_self]
        rfl
      · rw [updF_other _ _ _ _ hj]
  · obtain ⟨bytes, st2, hloop, hlen, hval, hg2, hlb2, hof2, herr2⟩ :=
      readLoop_correct env (st.openFiles fd.toNat).os_fd s hfnn hwf hrf
        (min count ((st.openFiles fd.toNat).file_size
          - (st.openFiles fd.toNat).current_offset))
        (min count ((st.openFiles fd.toNat).file_size
          - (st.openFiles fd.toNat).current_offset))
        st (st.openFiles fd.toNat).current_offset (Nat.le_refl _) hg
    refine ⟨bytes,
      ({ st2 with
        openFiles := updF st2.openFiles fd.toNat
          ({ st2.openFiles fd.toNat with
            current_offset := (st2.openFiles fd.toNat).current_offset
              + bytes.length }) }),
      ?_, ?_, ?_, GoodF_cache_files rfl rfl hg2,
      (fun o => (logicalByte_cache_files rfl rfl _ o).trans (hlb2 o)),
      ?_, herr2⟩
    · unfold vtpc_read
      rw [if_neg hguard]
      dsimp only
      rw [if_neg hcs]
      rw [hloop]
      dsimp only
      rw [hlen, hs]
    · rw [hlen, hs]
    · intro k hk
      rw [hlen, hs] at hk
      have hk2 : k < min count ((st.openFiles fd.toNat).file_size
          - (st.openFiles fd.toNat).current_offset) := by
        rw [hs]
        exact hk
      exact hval k hk2
    · dsimp only
      rw [hof2, hlen, hs]

theorem getD_take {cs : List Nat} {n k : Nat} (hk : k < n) :
    (cs.take n).getD k 0 = cs.getD k 0 := by
  rw [List.getD_eq_getElem?_getD, List.getD_eq_getElem?_getD,
    List.getElem?_take, if_pos hk]

theorem getD_drop (cs : List Nat) (n m : Nat) :
    (cs.drop n).getD m 0 = cs.getD (n + m) 0 := by
  rw [List.getD_eq_getElem?_getD, List.getD_eq_getElem?_getD,
    List.getElem?_drop]

theorem memcpy_finish (st1 stW : SysState) (f : Int) (sStar pos : Nat)
    (cs : List Nat) (ci : Nat) (hciN : ci < CACHE_SIZE_BLOCKS)
    (hfnn : 0 ≤ f)
    (hinv1 : PoolInv st1)
    (hB1 : ∀ i, i < CACHE_SIZE_BLOCKS → (st1.cache i).valid = true →
      0 ≤ (st1.cache i).fd)
    (hC1 : ∀ i, i < CACHE_SIZE_BLOCKS → i ≠ ci →
      (st1.cache i).valid = true → (st1.cache i).fd = f →
      (st1.cache i).dirty = false →
      ∀ j, j < BLOCK_SIZE →
        (st1.cache i).data j
          = storeByte (st1.files f.toNat)
              ((st1.cache i).block_index * BLOCK_SIZE + j))
    (hD1 : ∀ i, i < CACHE_SIZE_BLOCKS → (st1.cache i).valid = true →
      (st1.cache i).fd = f →
      ∀ j, j < BLOCK_SIZE →
        sStar ≤ (st1.cache i).block_index * BLOCK_SIZE + j →
        (st1.cache i).data j = 0)
    (hE1 : ∀ o, sStar ≤ o → storeByte (st1.files f.toNat) o = 0)
    (hm : cacheMatch st1.cache ci f (pos / BLOCK_SIZE))
    (hlen1 : 1 ≤ cs.length)
    (hbound : pos + cs.length ≤ sStar)
    (hstW : stW = { st1 with
      cache := updF st1.cache ci
        ({ st1.cache ci with
           data := blockWrite ((st1.cache ci).data) (pos % BLOCK_SIZE)
             (cs.take (min (BLOCK_SIZE - pos % BLOCK_SIZE) cs.length)),
           dirty := true }) }) :
    GoodF stW f sStar ∧
    (∀ o, o / BLOCK_SIZE ≠ pos / BLOCK_SIZE →
      logicalByte stW f o = logicalByte st1 f o) ∧
    (∀ k, k < min (BLOCK_SIZE - pos % BLOCK_SIZE) cs.length →
      logicalByte stW f (pos + k) = cs.getD k 0) ∧
    (∀ o, o / BLOCK_SIZE = pos / BLOCK_SIZE →
      (o < pos ∨ pos + min (BLOCK_SIZE - pos % BLOCK_SIZE) cs.length ≤ o) →
      logicalByte stW f o = (st1.cache ci).data (o % BLOCK_SIZE)) ∧
    stW.openFiles = st1.openFiles ∧ stW.errno = st1.errno ∧
    stW.files = st1.files := by
  have hmodlt : pos % BLOCK_SIZE < BLOCK_SIZE := Nat.mod_lt pos (by decide)
  have htcle : min (BLOCK_SIZE - pos % BLOCK_SIZE) cs.length ≤ cs.length :=
    Nat.min_le_right _ _
  have htake : (cs.take (min (BLOCK_SIZE - pos % BLOCK_SIZE)
      cs.length)).length = min (BLOCK_SIZE - pos % BLOCK_SIZE) cs.length := by
    rw [List.length_take]
    omega
  have htags : ∀ i, (stW.cache i).valid = (st1.cache i).valid ∧
      (stW.cache i).fd = (st1.cache i).fd ∧
      (stW.cache i).block_index = (st1.cache i).block_index := by
    intro i
    rw [hstW]
    dsimp only
    by_cases hic : i = ci
    · subst hic
      rw [updF_self]
      exact ⟨rfl, rfl, rfl⟩
    · rw [updF_other _ _ _ _ hic]
      exact ⟨rfl, rfl, rfl⟩
  have hcacheW_ci : stW.cache ci =
      ({ st1.cache ci with
         data := blockWrite ((st1.cache ci).data) (pos % BLOCK_SIZE)
           (cs.take (min (BLOCK_SIZE - pos % BLOCK_SIZE) cs.length)),
         dirty := true }) := by
    rw [hstW]
    dsimp only
    rw [updF_self]
  have hcacheW_other : ∀ i, i ≠ ci → stW.cache i = st1.cache i := by
    intro i hic
    rw [hstW]
    dsimp only
    rw [updF_other _ _ _ _ hic]
  have hfilesW : stW.files = st1.files := by
    rw [hstW]
  have hinvW : PoolInv stW := by
    rw [hstW]
    exact PoolInv_update_data_dirty hinv1 ci _ true
  have hmW : cacheMatch stW.cache ci f (pos / BLOCK_SIZE) := by
    refine ⟨?_, ?_, ?_⟩
    · rw [(htags ci).1]
      exact hm.1
    · rw [(htags ci).2.1]
      exact hm.2.1
    · rw [(htags ci).2.2]
      exact hm.2.2
  have hother : ∀ o, o / BLOCK_SIZE ≠ pos / BLOCK_SIZE →
      logicalByte stW f o = logicalByte st1 f o := by
    intro o hob
    have hfindeq : find_cache_block stW f (o / BLOCK_SIZE)
        = find_cache_block st1 f (o / BLOCK_SIZE) := by
      unfold find_cache_block
      exact findLoop_congr htags CACHE_SIZE_BLOCKS 0 f (o / BLOCK_SIZE)
    unfold logicalByte
    rw [hfindeq]
    cases hfind2 : find_cache_block st1 f (o / BLOCK_SIZE) with
    | none =>
      dsimp only
      rw [hfilesW]
    | some i =>
      dsimp only
      obtain ⟨hiN, hmi⟩ := find_cache_block_some_match hfind2
      have hic : i ≠ ci := by
        intro h
        subst h
        exact hob (hmi.2.2.symm.trans hm.2.2)
      rw [hcacheW_other i hic]
  refine ⟨⟨hinvW, ?_, ?_, ?_, ?_⟩, hother, ?_, ?_, ?_, ?_, hfilesW⟩
  · intro i hi hv
    rw [(htags i).1] at hv
    rw [(htags i).2.1]
    exact hB1 i hi hv
  · intro i hi hv hfd hcl j hj
    by_cases hic : i = ci
    · subst hic
      rw [hcacheW_ci] at hcl
      exact absurd hcl (by simp)
    · rw [hcacheW_other i hic] at hv hfd hcl ⊢
      rw [hfilesW]
      exact hC1 i hi hic hv hfd hcl j hj
  · intro i hi hv hfd j hj hsj
    by_cases hic : i = ci
    · rw [hic] at hsj ⊢
      rw [hcacheW_ci] at hsj ⊢
      dsimp only
      dsimp only at hsj
      have hbieq : (st1.cache ci).block_index = pos / BLOCK_SIZE := hm.2.2
      unfold blockWrite
      rw [htake]
      by_cases hin : pos % BLOCK_SIZE ≤ j ∧
          j < pos % BLOCK_SIZE + min (BLOCK_SIZE - pos % BLOCK_SIZE) cs.length
      · exfalso
        rw [hbieq] at hsj
        have hde := offset_decomp pos
        omega
      · rw [if_neg hin]
        exact hD1 ci hciN hm.1 hm.2.1 j hj hsj
    · rw [hcacheW_other i hic] at hv hfd hsj ⊢
      exact hD1 i hi hv hfd j hj hsj
  · intro o ho
    rw [hfilesW]
    exact hE1 o ho
  · intro k hk
    have hpk : pos + k = (pos / BLOCK_SIZE) * BLOCK_SIZE
        + (pos % BLOCK_SIZE + k) := by
      have := offset_decomp pos
      omega
    have hjk : pos % BLOCK_SIZE + k < BLOCK_SIZE := by
      omega
    have hdm := @block_offset_div (pos / BLOCK_SIZE) (pos % BLOCK_SIZE + k) hjk
    have hmWk : cacheMatch stW.cache ci f ((pos + k) / BLOCK_SIZE) := by
      rw [hpk, hdm.1]
      exact hmW
    rw [logicalByte_of_match hinvW hciN hmWk, hcacheW_ci]
    dsimp only
    rw [hpk, hdm.2]
    unfold blockWrite
    rw [htake]
    have hcond : pos % BLOCK_SIZE ≤ pos % BLOCK_SIZE + k ∧
        pos % BLOCK_SIZE + k < pos % BLOCK_SIZE
          + min (BLOCK_SIZE - pos % BLOCK_SIZE) cs.length := by
      omega
    rw [if_pos hcond]
    have hsub : pos % BLOCK_SIZE + k - pos % BLOCK_SIZE = k := by
      omega
    rw [hsub]
    exact getD_take hk
  · intro o hob hout
    have hde := offset_decomp o
    have hdp := offset_decomp pos
    have hmWo : cacheMatch stW.cache ci f (o / BLOCK_SIZE) := by
      rw [hob]
      exact hmW
    rw [logicalByte_of_match hinvW hciN hmWo, hcacheW_ci]
    dsimp only
    unfold blockWrite
    rw [htake]
    have hcond : ¬(pos % BLOCK_SIZE ≤ o % BLOCK_SIZE ∧
        o % BLOCK_SIZE < pos % BLOCK_SIZE
          + min (BLOCK_SIZE - pos % BLOCK_SIZE) cs.length) := by
      rw [hob] at hde
      have hmo : o % BLOCK_SIZE < BLOCK_SIZE := Nat.mod_lt o (by decide)
      omega
    rw [if_neg hcond]
  · rw [hstW]
  · rw [hstW]

theorem findLoop_congr_cond {c1 c2 : Nat → CacheBlock} {f : Int} {bi : Nat}
    (h : ∀ i, ((c2 i).valid = true ∧ (c2 i).fd = f ∧
        (c2 i).block_index = bi)
      ↔ ((c1 i).valid = true ∧ (c1 i).fd = f ∧ (c1 i).block_index = bi)) :
    ∀ fuel i, findLoop c2 f bi i fuel = findLoop c1 f bi i fuel := by
  intro fuel
  induction fuel with
  | zero =>
    intro i
    rfl
  | succ n ih =>
    intro i
    simp only [findLoop]
    by_cases hc : (c1 i).valid = true ∧ (c1 i).fd = f ∧
        (c1 i).block_index = bi
    · rw [if_pos hc, if_pos ((h i).mpr hc)]
    · rw [if_neg hc, if_neg (fun hh => hc ((h i).mp hh)), ih]

theorem logicalByte_populate_other (stE st1 : SysState) (f : Int)
    (ci blockIdx : Nat) (hslot : (stE.cache ci).valid = false)
    (v : CacheBlock) (hvbi : v.block_index = blockIdx)
    (hst1 : st1 = { stE with cache := updF stE.cache ci v })
    (o : Nat) (hob : o / BLOCK_SIZE ≠ blockIdx) :
    logicalByte st1 f o = logicalByte stE f o := by
  have hcond : ∀ i, ((st1.cache i).valid = true ∧ (st1.cache i).fd = f ∧
        (st1.cache i).block_index = o / BLOCK_SIZE)
      ↔ ((stE.cache i).valid = true ∧ (stE.cache i).fd = f ∧
        (stE.cache i).block_index = o / BLOCK_SIZE) := by
    intro i
    rw [hst1]
    dsimp only
    by_cases hic : i = ci
    · subst hic
      rw [updF_self]
      constructor
      · rintro ⟨_, _, h3⟩
        rw [hvbi] at h3
        exact absurd h3.symm hob
      · rintro ⟨h1, _, _⟩
        rw [hslot] at h1
        exact absurd h1 (by decide)
    · rw [updF_other _ _ _ _ hic]
  have hfindeq : find_cache_block st1 f (o / BLOCK_SIZE)
      = find_cache_block stE f (o / BLOCK_SIZE) := by
    unfold find_cache_block
    exact findLoop_congr_cond hcond CACHE_SIZE_BLOCKS 0
  unfold logicalByte
  rw [hfindeq]
  cases hf2 : find_cache_block stE f (o / BLOCK_SIZE) with
  | none =>
    dsimp only
    rw [hst1]
  | some i =>
    dsimp only
    obtain ⟨hiN, hmi⟩ := find_cache_block_some_match hf2
    have hic : i ≠ ci := by
      intro h
      rw [h] at hmi
      have h1 := hmi.1
      rw [hslot] at h1
      exact absurd h1 (by decide)
    rw [hst1]
    dsimp only
    rw [updF_other _ _ _ _ hic]

theorem stale_populate_facts (stE st1 : SysState) (f : Int)
    (sStar pos : Nat) (cs : List Nat) (ci : Nat)
    (hciN : ci < CACHE_SIZE_BLOCKS) (hfnn : 0 ≤ f)
    (hgE : GoodF stE f sStar)
    (hslot : (stE.cache ci).valid = false)
    (hnomE : ∀ i, i < CACHE_SIZE_BLOCKS →
      ¬cacheMatch stE.cache i f (pos / BLOCK_SIZE))
    (htc0 : pos % BLOCK_SIZE = 0) (hcsBS : BLOCK_SIZE ≤ cs.length)
    (hbound : pos + cs.length ≤ sStar)
    (hst1 : st1 = { stE with
      cache := updF stE.cache ci
        ({ data := (stE.cache ci).data, fd := f,
           block_index := pos / BLOCK_SIZE, dirty := false,
           frequency := 1, valid := true }) }) :
    PoolInv st1 ∧
    (∀ i, i < CACHE_SIZE_BLOCKS → (st1.cache i).valid = true →
      0 ≤ (st1.cache i).fd) ∧
    (∀ i, i < CACHE_SIZE_BLOCKS → i ≠ ci →
      (st1.cache i).valid = true → (st1.cache i).fd = f →
      (st1.cache i).dirty = false →
      ∀ j, j < BLOCK_SIZE →
        (st1.cache i).data j
          = storeByte (st1.files f.toNat)
              ((st1.cache i).block_index * BLOCK_SIZE + j)) ∧
    (∀ i, i < CACHE_SIZE_BLOCKS → (st1.cache i).valid = true →
      (st1.cache i).fd = f →
      ∀ j, j < BLOCK_SIZE →
        sStar ≤ (st1.cache i).block_index * BLOCK_SIZE + j →
        (st1.cache i).data j = 0) ∧
    (∀ o, sStar ≤ o → storeByte (st1.files f.toNat) o = 0) ∧
    cacheMatch st1.cache ci f (pos / BLOCK_SIZE) ∧
    (∀ o, o / BLOCK_SIZE ≠ pos / BLOCK_SIZE →
      logicalByte st1 f o = logicalByte stE f o) := by
  obtain ⟨hinvE, hBE, hCE, hDE, hEE⟩ := hgE
  have hcache_ci : st1.cache ci =
      ({ data := (stE.cache ci).data, fd := f,
         block_index := pos / BLOCK_SIZE, dirty := false,
         frequency := 1, valid := true }) := by
    rw [hst1]
    dsimp only
    rw [updF_self]
  have hcache_other : ∀ i, i ≠ ci → st1.cache i = stE.cache i := by
    intro i hic
    rw [hst1]
    dsimp only
    rw [updF_other _ _ _ _ hic]
  have hfiles : st1.files = stE.files := by
    rw [hst1]
  refine ⟨?_, ?_, ?_, ?_, ?_, ?_, ?_⟩
  · rw [hst1]
    exact PoolInv_populate hinvE hnomE (fun i g bi h => h) ci
      ((stE.cache ci).data) false 1
  · intro i hi hv
    by_cases hic : i = ci
    · rw [hic, hcache_ci]
      exact hfnn
    · rw [hcache_other i hic] at hv ⊢
      exact hBE i hi hv
  · intro i hi hic hv hfd hcl j hj
    rw [hcache_other i hic] at hv hfd hcl ⊢
    rw [hfiles]
    exact hCE i hi hv hfd hcl j hj
  · intro i hi hv hfd j hj hsj
    by_cases hic : i = ci
    · exfalso
      rw [hic, hcache_ci] at hsj
      dsimp only at hsj
      have hdp := offset_decomp pos
      omega
    · rw [hcache_other i hic] at hv hfd hsj ⊢
      exact hDE i hi hv hfd j hj hsj
  · intro o ho
    rw [hfiles]
    exact hEE o ho
  · unfold cacheMatch
    rw [hcache_ci]
    exact ⟨rfl, rfl, rfl⟩
  · intro o hob
    rw [hst1]
    exact logicalByte_populate_other stE _ f ci (pos / BLOCK_SIZE) hslot _
      rfl rfl o hob

theorem writeStep_correct (env : IOEnv) (st stW : SysState) (f : Int)
    (sStar pos : Nat) (cs : List Nat)
    (hfnn : 0 ≤ f) (hwf : env.writesFail f.toNat = false)
    (hrf : env.readsFail f.toNat = false)
    (hg : GoodF st f sStar) (hlen1 : 1 ≤ cs.length)
    (hbound : pos + cs.length ≤ sStar)
    (hstW : stW = { (writeLocate env st f (pos / BLOCK_SIZE)
        (min (BLOCK_SIZE - pos % BLOCK_SIZE) cs.length)).snd with
      cache := updF
        (writeLocate env st f (pos / BLOCK_SIZE)
          (min (BLOCK_SIZE - pos % BLOCK_SIZE) cs.length)).snd.cache
        (writeLocate env st f (pos / BLOCK_SIZE)
          (min (BLOCK_SIZE - pos % BLOCK_SIZE) cs.length)).fst
        ({ (writeLocate env st f (pos / BLOCK_SIZE)
            (min (BLOCK_SIZE - pos % BLOCK_SIZE) cs.length)).snd.cache
            (writeLocate env st f (pos / BLOCK_SIZE)
              (min (BLOCK_SIZE - pos % BLOCK_SIZE) cs.length)).fst with
           data := blockWrite
             (((writeLocate env st f (pos / BLOCK_SIZE)
                (min (BLOCK_SIZE - pos % BLOCK_SIZE) cs.length)).snd.cache
                (writeLocate env st f (pos / BLOCK_SIZE)
                  (min (BLOCK_SIZE - pos % BLOCK_SIZE) cs.length)).fst).data)
             (pos % BLOCK_SIZE)
             (cs.take (min (BLOCK_SIZE - pos % BLOCK_SIZE) cs.length)),
           dirty := true }) }) :
    GoodF stW f sStar ∧
    (∀ o, o < pos ∨ pos + min (BLOCK_SIZE - pos % BLOCK_SIZE) cs.length ≤ o →
      logicalByte stW f o = logicalByte st f o) ∧
    (∀ k, k < min (BLOCK_SIZE - pos % BLOCK_SIZE) cs.length →
      logicalByte stW f (pos + k) = cs.getD k 0) ∧
    stW.openFiles = st.openFiles ∧ stW.errno = st.errno := by
  cases hfind : find_cache_block st f (pos / BLOCK_SIZE) with
  | some ci =>
    obtain ⟨hciN, hmci⟩ := find_cache_block_some_match hfind
    have heq : writeLocate env st f (pos / BLOCK_SIZE)
        (min (BLOCK_SIZE - pos % BLOCK_SIZE) cs.length)
        = (ci, { st with
            cache := updF st.cache ci
              ({ st.cache ci with
                frequency := (st.cache ci).frequency + 1 }) }) := by
      unfold writeLocate
      rw [hfind]
    rw [heq] at hstW
    dsimp only at hstW
    have hb := bump_preserves st
      ({ st with
        cache := updF st.cache ci
          ({ st.cache ci with
            frequency := (st.cache ci).frequency + 1 }) })
      f sStar ci ((st.cache ci).frequency + 1) hg rfl
    obtain ⟨hg1, hlb1⟩ := hb
    obtain ⟨hinv1, hB1, hC1, hD1, hE1⟩ := hg1
    have hmb : cacheMatch
        ({ st with
          cache := updF st.cache ci
            ({ st.cache ci with
              frequency := (st.cache ci).frequency + 1 }) }).cache
        ci f (pos / BLOCK_SIZE) := by
      unfold cacheMatch
      dsimp only
      rw [updF_self]
      exact hmci
    have hfin := memcpy_finish
      ({ st with
        cache := updF st.cache ci
          ({ st.cache ci with
            frequency := (st.cache ci).frequency + 1 }) })
      stW f sStar pos cs ci hciN hfnn hinv1 hB1
      (fun i hi _ hv hfd hcl j hj => hC1 i hi hv hfd hcl j hj)
      hD1 hE1 hmb hlen1 hbound hstW
    obtain ⟨hgW, hother, hchunk, hinblk, hof, herr, hfl⟩ := hfin
    refine ⟨hgW, ?_, hchunk, hof.trans rfl, herr.trans rfl⟩
    intro o ho
    by_cases hob : o / BLOCK_SIZE = pos / BLOCK_SIZE
    · rw [hinblk o hob ho]
      dsimp only
      rw [updF_self]
      dsimp only
      have hmo : cacheMatch st.cache ci f (o / BLOCK_SIZE) := by
        rw [hob]
        exact hmci
      rw [← logicalByte_of_match hg.1 hciN hmo]
    · rw [hother o hob]
      exact hlb1 o
  | none =>
    have hnom := find_cache_block_none_match hfind
    obtain ⟨hgE, hlbE, hslotE⟩ := evict_preserves env st f sStar hfnn hwf hg
    have hnomE : ∀ i, i < CACHE_SIZE_BLOCKS →
        ¬cacheMatch (evict_block env st).snd.cache i f (pos / BLOCK_SIZE) := by
      intro i hi hm
      exact hnom i hi (evict_block_match_sub env st i f (pos / BLOCK_SIZE) hm)
    by_cases htc : min (BLOCK_SIZE - pos % BLOCK_SIZE) cs.length < BLOCK_SIZE
    · have hpread : preadLen env f.toNat
          ((evict_block env st).snd.files f.toNat)
          ((pos / BLOCK_SIZE) * BLOCK_SIZE) BLOCK_SIZE
          = some (min BLOCK_SIZE
              (((evict_block env st).snd.files f.toNat).len
                - (pos / BLOCK_SIZE) * BLOCK_SIZE)) := by
        unfold preadLen
        rw [hrf]
        rfl
      have heq : writeLocate env st f (pos / BLOCK_SIZE)
          (min (BLOCK_SIZE - pos % BLOCK_SIZE) cs.length)
          = ((evict_block env st).fst,
            { (evict_block env st).snd with
              cache := updF (evict_block env st).snd.cache
                (evict_block env st).fst
                ({ data := populateFromStore
                    ((evict_block env st).snd.files f.toNat)
                    ((pos / BLOCK_SIZE) * BLOCK_SIZE)
                    (min BLOCK_SIZE
                      (((evict_block env st).snd.files f.toNat).len
                        - (pos / BLOCK_SIZE) * BLOCK_SIZE)),
                   fd := f, block_index := pos / BLOCK_SIZE, dirty := false,
                   frequency := 1, valid := true }) }) := by
        unfold writeLocate
        rw [hfind]
        dsimp only
        rw [if_pos htc, hpread]
      rw [heq] at hstW
      dsimp only at hstW
      have hpop := populate_preserves (evict_block env st).snd
        ({ (evict_block env st).snd with
          cache := updF (evict_block env st).snd.cache
            (evict_block env st).fst
            ({ data := populateFromStore
                ((evict_block env st).snd.files f.toNat)
                ((pos / BLOCK_SIZE) * BLOCK_SIZE)
                (min BLOCK_SIZE
                  (((evict_block env st).snd.files f.toNat).len
                    - (pos / BLOCK_SIZE) * BLOCK_SIZE)),
               fd := f, block_index := pos / BLOCK_SIZE, dirty := false,
               frequency := 1, valid := true }) })
        f sStar (pos / BLOCK_SIZE) (evict_block env st).fst hgE hfnn
        (evict_block_fst_lt env st) hslotE hnomE
        (populateFromStore ((evict_block env st).snd.files f.toNat)
          ((pos / BLOCK_SIZE) * BLOCK_SIZE)
          (min BLOCK_SIZE
            (((evict_block env st).snd.files f.toNat).len
              - (pos / BLOCK_SIZE) * BLOCK_SIZE)))
        (populateFromStore_eq_storeByte
          ((evict_block env st).snd.files f.toNat) (pos / BLOCK_SIZE)) rfl
      obtain ⟨hg1, hlb1, hm1⟩ := hpop
      obtain ⟨hinv1, hB1, hC1, hD1, hE1⟩ := hg1
      have hfin := memcpy_finish
        ({ (evict_block env st).snd with
          cache := updF (evict_block env st).snd.cache
            (evict_block env st).fst
            ({ data := populateFromStore
                ((evict_block env st).snd.files f.toNat)
                ((pos / BLOCK_SIZE) * BLOCK_SIZE)
                (min BLOCK_SIZE
                  (((evict_block env st).snd.files f.toNat).len
                    - (pos / BLOCK_SIZE) * BLOCK_SIZE)),
               fd := f, block_index := pos / BLOCK_SIZE, dirty := false,
               frequency := 1, valid := true }) })
        stW f sStar pos cs (evict_block env st).fst
        (evict_block_fst_lt env st) hfnn hinv1 hB1
        (fun i hi _ hv hfd hcl j hj => hC1 i hi hv hfd hcl j hj)
        hD1 hE1 hm1 hlen1 hbound hstW
      obtain ⟨hgW, hother, hchunk, hinblk, hof, herr, hfl⟩ := hfin
      refine ⟨hgW, ?_, hchunk,
        hof.trans (evict_block_openFiles env st),
        herr.trans (evict_block_errno env st)⟩
      intro o ho
      by_cases hob : o / BLOCK_SIZE = pos / BLOCK_SIZE
      · rw [hinblk o hob ho]
        dsimp only
        rw [updF_self]
        dsimp only
        rw [populateFromStore_eq_storeByte
          ((evict_block env st).snd.files f.toNat) (pos / BLOCK_SIZE)
          (o % BLOCK_SIZE) (Nat.mod_lt o (by decide))]
        have hoeq : (pos / BLOCK_SIZE) * BLOCK_SIZE + o % BLOCK_SIZE = o := by
          have hde := offset_decomp o
          rw [hob] at hde
          exact hde
        rw [hoeq]
        have hnoj : ∀ i, i < CACHE_SIZE_BLOCKS →
            ¬cacheMatch (evict_block env st).snd.cache i f
              (o / BLOCK_SIZE) := by
          rw [hob]
          exact hnomE
        rw [← logicalByte_of_nomatch hnoj]
        exact hlbE o
      · rw [hother o hob, hlb1 o]
        exact hlbE o
    · have hmodlt : pos % BLOCK_SIZE < BLOCK_SIZE :=
        Nat.mod_lt pos (by decide)
      have htc0 : pos % BLOCK_SIZE = 0 := by
        omega
      have htcBS : min (BLOCK_SIZE - pos % BLOCK_SIZE) cs.length
          = BLOCK_SIZE := by
        omega
      have hcsBS : BLOCK_SIZE ≤ cs.length := by
        omega
      have heq : writeLocate env st f (pos / BLOCK_SIZE)
          (min (BLOCK_SIZE - pos % BLOCK_SIZE) cs.length)
          = ((evict_block env st).fst,
            { (evict_block env st).snd with
              cache := updF (evict_block env st).snd.cache
                (evict_block env st).fst
                ({ data := ((evict_block env st).snd.cache
                    (evict_block env st).fst).data,
                   fd := f, block_index := pos / BLOCK_SIZE, dirty := false,
                   frequency := 1, valid := true }) }) := by
        unfold writeLocate
        rw [hfind]
        dsimp only
        rw [if_neg htc]
      rw [heq] at hstW
      dsimp only at hstW
      have hsf := stale_populate_facts (evict_block env st).snd
        ({ (evict_block env st).snd with
          cache := updF (evict_block env st).snd.cache
            (evict_block env st).fst
            ({ data := ((evict_block env st).snd.cache
                (evict_block env st).fst).data,
               fd := f, block_index := pos / BLOCK_SIZE, dirty := false,
               frequency := 1, valid := true }) })
        f sStar pos cs (evict_block env st).fst
        (evict_block_fst_lt env st) hfnn hgE hslotE hnomE htc0 hcsBS
        hbound rfl
      obtain ⟨hinv1, hB1, hC1, hD1, hE1, hm1, hout1⟩ := hsf
      have hfin := memcpy_finish
        ({ (evict_block env st).snd with
          cache := updF (evict_block env st).snd.cache
            (evict_block env st).fst
            ({ data := ((evict_block env st).snd.cache
                (evict_block env st).fst).data,
               fd := f, block_index := pos / BLOCK_SIZE, dirty := false,
               frequency := 1, valid := true }) })
        stW f sStar pos cs (evict_block env st).fst
        (evict_block_fst_lt env st) hfnn hinv1 hB1 hC1 hD1 hE1 hm1
        hlen1 hbound hstW
      obtain ⟨hgW, hother, hchunk, hinblk, hof, herr, hfl⟩ := hfin
      refine ⟨hgW, ?_, hchunk,
        hof.trans (evict_block_openFiles env st),
        herr.trans (evict_block_errno env st)⟩
      intro o ho
      by_cases hob : o / BLOCK_SIZE = pos / BLOCK_SIZE
      · exfalso
        have hdo := offset_decomp o
        rw [hob] at hdo
        have hdp := offset_decomp pos
        have hmo : o % BLOCK_SIZE < BLOCK_SIZE := Nat.mod_lt o (by decide)
        rw [htcBS] at ho
        omega
      · rw [hother o hob, hout1 o hob]
        exact hlbE o

theorem writeLoop_correct (env : IOEnv) (f : Int) (sStar : Nat)
    (hfnn : 0 ≤ f) (hwf : env.writesFail f.toNat = false)
    (hrf : env.readsFail f.toNat = false) :
    ∀ fuel bs st pos, bs.length ≤ fuel → GoodF st f sStar →
      pos + bs.length ≤ sStar →
      GoodF (writeLoop env st f pos bs fuel) f sStar ∧
      (∀ o, o < pos ∨ pos + bs.length ≤ o →
        logicalByte (writeLoop env st f pos bs fuel) f o
          = logicalByte st f o) ∧
      (∀ k, k < bs.length →
        logicalByte (writeLoop env st f pos bs fuel) f (pos + k)
          = bs.getD k 0) ∧
      (writeLoop env st f pos bs fuel).openFiles = st.openFiles ∧
      (writeLoop env st f pos bs fuel).errno = st.errno := by
  intro fuel
  induction fuel with
  | zero =>
    intro bs st pos hfu hg hbound
    have h0 : bs = [] := List.length_eq_zero.mp (Nat.le_zero.mp hfu)
    subst h0
    exact ⟨hg, fun o ho => rfl, fun k hk => absurd hk (by simp), rfl, rfl⟩
  | succ n ih =>
    intro bs st pos hfu hg hbound
    cases bs with
    | nil =>
      exact ⟨hg, fun o ho => rfl, fun k hk => absurd hk (by simp), rfl, rfl⟩
    | cons b rest =>
      have hstep := writeStep_correct env st
        ({ (writeLocate env st f (pos / BLOCK_SIZE)
            (min (BLOCK_SIZE - pos % BLOCK_SIZE) (b :: rest).length)).snd with
          cache := updF
            (writeLocate env st f (pos / BLOCK_SIZE)
              (min (BLOCK_SIZE - pos % BLOCK_SIZE)
                (b :: rest).length)).snd.cache
            (writeLocate env st f (pos / BLOCK_SIZE)
              (min (BLOCK_SIZE - pos % BLOCK_SIZE)
                (b :: rest).length)).fst
            ({ (writeLocate env st f (pos / BLOCK_SIZE)
                (min (BLOCK_SIZE - pos % BLOCK_SIZE)
                  (b :: rest).length)).snd.cache
                (writeLocate env st f (pos / BLOCK_SIZE)
                  (min (BLOCK_SIZE - pos % BLOCK_SIZE)
                    (b :: rest).length)).fst with
               data := blockWrite
                 (((writeLocate env st f (pos / BLOCK_SIZE)
                    (min (BLOCK_SIZE - pos % BLOCK_SIZE)
                      (b :: rest).length)).snd.cache
                    (writeLocate env st f (pos / BLOCK_SIZE)
                      (min (BLOCK_SIZE - pos % BLOCK_SIZE)
                        (b :: rest).length)).fst).data)
                 (pos % BLOCK_SIZE)
                 ((b :: rest).take
                   (min (BLOCK_SIZE - pos % BLOCK_SIZE) (b :: rest).length)),
               dirty := true }) })
        f sStar pos (b :: rest) hfnn hwf hrf hg (by simp) hbound rfl
      obtain ⟨hgW, houtW, hchunkW, hofW, herrW⟩ := hstep
      have hmodlt : pos % BLOCK_SIZE < BLOCK_SIZE :=
        Nat.mod_lt pos (by decide)
      have htc1 : 1 ≤ min (BLOCK_SIZE - pos % BLOCK_SIZE)
          (b :: rest).length := by
        simp only [List.length_cons]
        omega
      have htcle : min (BLOCK_SIZE - pos % BLOCK_SIZE) (b :: rest).length
          ≤ (b :: rest).length := Nat.min_le_right _ _
      have hdroplen : ((b :: rest).drop
          (min (BLOCK_SIZE - pos % BLOCK_SIZE) (b :: rest).length)).length
          = (b :: rest).length
            - min (BLOCK_SIZE - pos % BLOCK_SIZE) (b :: rest).length := by
        rw [List.length_drop]
      have hrec := ih
        ((b :: rest).drop
          (min (BLOCK_SIZE - pos % BLOCK_SIZE) (b :: rest).length))
        ({ (writeLocate env st f (pos / BLOCK_SIZE)
            (min (BLOCK_SIZE - pos % BLOCK_SIZE) (b :: rest).length)).snd with
          cache := updF
            (writeLocate env st f (pos / BLOCK_SIZE)
              (min (BLOCK_SIZE - pos % BLOCK_SIZE)
                (b :: rest).length)).snd.cache
            (writeLocate env st f (pos / BLOCK_SIZE)
              (min (BLOCK_SIZE - pos % BLOCK_SIZE)
                (b :: rest).length)).fst
            ({ (writeLocate env st f (pos / BLOCK_SIZE)
                (min (BLOCK_SIZE - pos % BLOCK_SIZE)
                  (b :: rest).length)).snd.cache
                (writeLocate env st f (pos / BLOCK_SIZE)
                  (min (BLOCK_SIZE - pos % BLOCK_SIZE)
                    (b :: rest).length)).fst with
               data := blockWrite
                 (((writeLocate env st f (pos / BLOCK_SIZE)
                    (min (BLOCK_SIZE - pos % BLOCK_SIZE)
                      (b :: rest).length)).snd.cache
                    (writeLocate env st f (pos / BLOCK_SIZE)
                      (min (BLOCK_SIZE - pos % BLOCK_SIZE)
                        (b :: rest).length)).fst).data)
                 (pos % BLOCK_SIZE)
                 ((b :: rest).take
                   (min (BLOCK_SIZE - pos % BLOCK_SIZE) (b :: rest).length)),
               dirty := true }) })
        (pos + min (BLOCK_SIZE - pos % BLOCK_SIZE) (b :: rest).length)
        (by rw [hdroplen]; simp only [List.length_cons] at hfu ⊢; omega)
        hgW
        (by rw [hdroplen]; omega)
      obtain ⟨hgF, houtF, hvalF, hofF, herrF⟩ := hrec
      have hunf : writeLoop env st f pos (b :: rest) (n + 1)
          = writeLoop env
            ({ (writeLocate env st f (pos / BLOCK_SIZE)
                (min (BLOCK_SIZE - pos % BLOCK_SIZE)
                  (b :: rest).length)).snd with
              cache := updF
                (writeLocate env st f (pos / BLOCK_SIZE)
                  (min (BLOCK_SIZE - pos % BLOCK_SIZE)
                    (b :: rest).length)).snd.cache
                (writeLocate env st f (pos / BLOCK_SIZE)
                  (min (BLOCK_SIZE - pos % BLOCK_SIZE)
                    (b :: rest).length)).fst
                ({ (writeLocate env st f (pos / BLOCK_SIZE)
                    (min (BLOCK_SIZE - pos % BLOCK_SIZE)
                      (b :: rest).length)).snd.cache
                    (writeLocate env st f (pos / BLOCK_SIZE)
                      (min (BLOCK_SIZE - pos % BLOCK_SIZE)
                        (b :: rest).length)).fst with
                   data := blockWrite
                     (((writeLocate env st f (pos / BLOCK_SIZE)
                        (min (BLOCK_SIZE - pos % BLOCK_SIZE)
                          (b :: rest).length)).snd.cache
                        (writeLocate env st f (pos / BLOCK_SIZE)
                          (min (BLOCK_SIZE - pos % BLOCK_SIZE)
                            (b :: rest).length)).fst).data)
                     (pos % BLOCK_SIZE)
                     ((b :: rest).take
                       (min (BLOCK_SIZE - pos % BLOCK_SIZE)
                         (b :: rest).length)),
                   dirty := true }) })
            f (pos + min (BLOCK_SIZE - pos % BLOCK_SIZE) (b :: rest).length)
            ((b :: rest).drop
              (min (BLOCK_SIZE - pos % BLOCK_SIZE) (b :: rest).length))
            n := by
        rfl
      rw [hunf]
      refine ⟨hgF, ?_, ?_, hofF.trans hofW, herrF.trans herrW⟩
      · intro o ho
        have ho2 : o < pos + min (BLOCK_SIZE - pos % BLOCK_SIZE)
            (b :: rest).length ∨
            pos + min (BLOCK_SIZE - pos % BLOCK_SIZE) (b :: rest).length
              + ((b :: rest).drop (min (BLOCK_SIZE - pos % BLOCK_SIZE)
                  (b :: rest).length)).length ≤ o := by
          rw [hdroplen]
          rcases ho with ho | ho
          · left
            omega
          · right
            omega
        rw [houtF o ho2]
        refine houtW o ?_
        rcases ho with ho | ho
        · exact Or.inl ho
        · right
          omega
      · intro k hk
        by_cases hkc : k < min (BLOCK_SIZE - pos % BLOCK_SIZE)
            (b :: rest).length
        · rw [houtF (pos + k) (Or.inl (by omega))]
          exact hchunkW k hkc
        · have hke : pos + min (BLOCK_SIZE - pos % BLOCK_SIZE)
              (b :: rest).length
              + (k - min (BLOCK_SIZE - pos % BLOCK_SIZE) (b :: rest).length)
              = pos + k := by
            omega
          have hv := hvalF
            (k - min (BLOCK_SIZE - pos % BLOCK_SIZE) (b :: rest).length)
            (by rw [hdroplen]; omega)
          rw [hke] at hv
          rw [hv, getD_drop]
          congr 1
          omega

theorem updF_updF {α : Type} (g : Nat → α) (i : Nat) (a b : α) :
    updF (updF g i a) i b = updF g i b := by
  funext j
  unfold updF
  by_cases h : j = i
  · rw [if_pos h, if_pos h]
  · rw [if_neg h, if_neg h, if_neg h]

theorem vtpc_write_correct (env : IOEnv) (st : SysState) (fd : Int)
    (bs : List Nat) (s : Nat)
    (hfd0 : 0 ≤ fd) (hfdM : fd < (MAX_OPEN_FILES : Int))
    (hosfd : (st.openFiles fd.toNat).os_fd ≠ -1)
    (hfnn : 0 ≤ (st.openFiles fd.toNat).os_fd)
    (hwf : env.writesFail (st.openFiles fd.toNat).os_fd.toNat = false)
    (hrf : env.readsFail (st.openFiles fd.toNat).os_fd.toNat = false)
    (hs : (st.openFiles fd.toNat).file_size = s)
    (hg : GoodF st (st.openFiles fd.toNat).os_fd s) :
    ∃ st3, vtpc_write env st fd bs = ((bs.length : Int), st3) ∧
      GoodF st3 (st.openFiles fd.toNat).os_fd
        (max s ((st.openFiles fd.toNat).current_offset + bs.length)) ∧
      (∀ k, k < bs.length →
        logicalByte st3 (st.openFiles fd.toNat).os_fd
          ((st.openFiles fd.toNat).current_offset + k) = bs.getD k 0) ∧
      (∀ o, o < (st.openFiles fd.toNat).current_offset ∨
          (st.openFiles fd.toNat).current_offset + bs.length ≤ o →
        logicalByte st3 (st.openFiles fd.toNat).os_fd o
          = logicalByte st (st.openFiles fd.toNat).os_fd o) ∧
      st3.openFiles = updF st.openFiles fd.toNat
        ({ st.openFiles fd.toNat with
          current_offset :=
            (st.openFiles fd.toNat).current_offset + bs.length,
          file_size := max s
            ((st.openFiles fd.toNat).current_offset + bs.length) }) ∧
      st3.errno = st.errno := by
  have hguard : ¬(fd < 0 ∨ (MAX_OPEN_FILES : Int) ≤ fd ∨
      (st.openFiles fd.toNat).os_fd = -1) := by
    push_neg
    exact ⟨by omega, by omega, hosfd⟩
  have hloop := writeLoop_correct env (st.openFiles fd.toNat).os_fd
    (max s ((st.openFiles fd.toNat).current_offset + bs.length))
    hfnn hwf hrf bs.length bs st
    (st.openFiles fd.toNat).current_offset (Nat.le_refl _)
    (GoodF_mono (Nat.le_max_left _ _) hg)
    (Nat.le_max_right _ _)
  obtain ⟨hgL, houtL, hvalL, hofL, herrL⟩ := hloop
  have hS : vtpc_write env st fd bs
      = ((bs.length : Int),
        { writeLoop env st (st.openFiles fd.toNat).os_fd
            (st.openFiles fd.toNat).current_offset bs bs.length with
          openFiles := updF st.openFiles fd.toNat
            ({ st.openFiles fd.toNat with
              current_offset :=
                (st.openFiles fd.toNat).current_offset + bs.length,
              file_size := max s
                ((st.openFiles fd.toNat).current_offset
                  + bs.length) }) }) := by
    unfold vtpc_write
    rw [if_neg hguard]
    dsimp only
    rw [updF_self, hofL]
    dsimp only
    rw [hs]
    by_cases hext : s < (st.openFiles fd.toNat).current_offset + bs.length
    · rw [if_pos hext]
      rw [updF_updF]
      have hmax : max s ((st.openFiles fd.toNat).current_offset + bs.length)
          = (st.openFiles fd.toNat).current_offset + bs.length := by
        omega
      rw [hmax]
    · rw [if_neg hext]
      have hmax : max s ((st.openFiles fd.toNat).current_offset + bs.length)
          = s := by
        omega
      rw [hmax, ← hs]
  refine ⟨_, hS, ?_, ?_, ?_, ?_, ?_⟩
  · exact GoodF_cache_files rfl rfl hgL
  · intro k hk
    rw [logicalByte_cache_files rfl rfl]
    exact hvalL k hk
  · intro o ho
    rw [logicalByte_cache_files rfl rfl]
    exact houtL o ho
  · rfl
  · exact herrL

theorem vtpc_lseek_set_ok (st : SysState) (fd offset : Int)
    (hfd0 : 0 ≤ fd) (hfdM : fd < (MAX_OPEN_FILES : Int))
    (hosfd : (st.openFiles fd.toNat).os_fd ≠ -1)
    (hoff : 0 ≤ offset) :
    vtpc_lseek st fd offset SEEK_SET
      = (offset, { st with
          openFiles := updF st.openFiles fd.toNat
            ({ st.openFiles fd.toNat with
              current_offset := offset.toNat }) }) := by
  have hguard : ¬(fd < 0 ∨ (MAX_OPEN_FILES : Int) ≤ fd ∨
      (st.openFiles fd.toNat).os_fd = -1) := by
    push_neg
    exact ⟨by omega, by omega, hosfd⟩
  unfold vtpc_lseek
  rw [if_neg hguard]
  dsimp only
  rw [if_pos rfl]
  dsimp only
  rw [if_neg (by omega)]

theorem list_eq_of_getD {a b : List Nat} (hlen : a.length = b.length)
    (h : ∀ k, k < a.length → a.getD k 0 = b.getD k 0) : a = b := by
  apply List.ext_getElem hlen
  intro i h1 h2
  have hi := h i h1
  rwa [List.getD_eq_getElem?_getD, List.getD_eq_getElem?_getD,
    List.getElem?_eq_getElem h1, List.getElem?_eq_getElem h2] at hi

theorem read_back (env : IOEnv) (stR : SysState) (fd : Int)
    (want : List Nat) (s2 c0 : Nat)
    (hfd0 : 0 ≤ fd) (hfdM : fd < (MAX_OPEN_FILES : Int))
    (hosfd : (stR.openFiles fd.toNat).os_fd ≠ -1)
    (hfnn : 0 ≤ (stR.openFiles fd.toNat).os_fd)
    (hwf : env.writesFail (stR.openFiles fd.toNat).os_fd.toNat = false)
    (hrf : env.readsFail (stR.openFiles fd.toNat).os_fd.toNat = false)
    (hsz : (stR.openFiles fd.toNat).file_size = s2)
    (hcur : (stR.openFiles fd.toNat).current_offset = c0)
    (hg : GoodF stR (stR.openFiles fd.toNat).os_fd s2)
    (hbound : c0 + want.length ≤ s2)
    (hvals : ∀ k, k < want.length →
      logicalByte stR (stR.openFiles fd.toNat).os_fd (c0 + k)
        = want.getD k 0) :
    ∃ st5, vtpc_read env stR fd want.length
      = ((want.length : Int), want, st5) := by
  obtain ⟨bytes, st2, heq, hlen, hval, _, _, _, _⟩ :=
    vtpc_read_correct env stR fd want.length s2 hfd0 hfdM hosfd hfnn hwf
      hrf hsz hg
  have hmin : min want.length
      (s2 - (stR.openFiles fd.toNat).current_offset) = want.length := by
    rw [hcur]
    omega
  rw [hmin] at heq hlen
  have hbs : bytes = want := by
    apply list_eq_of_getD (by rw [hlen])
    intro k hk
    rw [hlen] at hk
    rw [hval k (by rw [hlen]; exact hk), hcur]
    exact hvals k hk
  rw [hbs] at heq
  exact ⟨st2, heq⟩

/-- C1: writing a byte sequence of any length L through `vtpc_write` at
offset 0 on a freshly opened handle (cursor 0), seeking back to offset 0
with `vtpc_lseek(fd, 0, SEEK_SET)` and reading L bytes with `vtpc_read`
returns L and yields exactly the written bytes, whatever the relation of L
to the block size (sub-block, exact block, or spanning several blocks). -/
theorem write_seek_read_round_trip (env : IOEnv) (st : SysState) (fd : Int)
    (bs : List Nat) (s : Nat)
    (hfd0 : 0 ≤ fd) (hfdM : fd < (MAX_OPEN_FILES : Int))
    (hosfd : (st.openFiles fd.toNat).os_fd ≠ -1)
    (hfnn : 0 ≤ (st.openFiles fd.toNat).os_fd)
    (hwf : env.writesFail (st.openFiles fd.toNat).os_fd.toNat = false)
    (hrf : env.readsFail (st.openFiles fd.toNat).os_fd.toNat = false)
    (hcur : (st.openFiles fd.toNat).current_offset = 0)
    (hs : (st.openFiles fd.toNat).file_size = s)
    (hg : GoodF st (st.openFiles fd.toNat).os_fd s) :
    (vtpc_write env st fd bs).fst = (bs.length : Int) ∧
    ∃ st4, vtpc_lseek (vtpc_write env st fd bs).snd fd 0 SEEK_SET
        = (0, st4) ∧
      ∃ st5, vtpc_read env st4 fd bs.length
        = ((bs.length : Int), bs, st5) := by
  obtain ⟨st3, heq3, hg3, hval3, hout3, hof3, herr3⟩ :=
    vtpc_write_correct env st fd bs s hfd0 hfdM hosfd hfnn hwf hrf hs hg
  simp only [hcur, Nat.zero_add] at hg3 hval3 hof3
  have hctx3 : st3.openFiles fd.toNat
      = ({ st.openFiles fd.toNat with
          current_offset := bs.length,
          file_size := max s bs.length }) := by
    rw [hof3, updF_self]
  have hosfd3 : (st3.openFiles fd.toNat).os_fd ≠ -1 := by
    rw [hctx3]
    exact hosfd
  have hlseek := vtpc_lseek_set_ok st3 fd 0 hfd0 hfdM hosfd3 (Int.le_refl 0)
  have hctx4 : (({ st3 with
      openFiles := updF st3.openFiles fd.toNat
        ({ st3.openFiles fd.toNat with
          current_offset := (0 : Int).toNat }) }).openFiles fd.toNat)
      = ({ st.openFiles fd.toNat with
          current_offset := 0,
          file_size := max s bs.length }) := by
    dsimp only
    rw [updF_self, hctx3]
    rfl
  obtain ⟨st5, hread⟩ := read_back env
    ({ st3 with
      openFiles := updF st3.openFiles fd.toNat
        ({ st3.openFiles fd.toNat with
          current_offset := (0 : Int).toNat }) })
    fd bs (max s bs.length) 0 hfd0 hfdM
    (by rw [hctx4]; exact hosfd)
    (by rw [hctx4]; exact hfnn)
    (by rw [hctx4]; exact hwf)
    (by rw [hctx4]; exact hrf)
    (by rw [hctx4])
    (by rw [hctx4])
    (by rw [hctx4]; exact GoodF_cache_files rfl rfl hg3)
    (by omega)
    (by
      intro k hk
      rw [hctx4]
      rw [logicalByte_cache_files rfl rfl]
      simp only [Nat.zero_add]
      exact hval3 k hk)
  rw [heq3]
  exact ⟨rfl, _, hlseek, st5, hread⟩

theorem GoodF_stOneOpen : GoodF stOneOpen 0 0 := by
  refine ⟨PoolInv_stOneOpen, ?_, ?_, ?_, ?_⟩
  · intro i hi hv
    simp [stOneOpen, baseState, emptyBlock] at hv
  · intro i hi hv
    simp [stOneOpen, baseState, emptyBlock] at hv
  · intro i hi hv
    simp [stOneOpen, baseState, emptyBlock] at hv
  · intro o ho
    simp [stOneOpen, baseState, emptyFile, storeByte]

/-- Witness for C1: the two-byte sequence `[7, 3]` written at offset 0 on
the concrete one-handle state round-trips through seek and read. -/
theorem write_seek_read_round_trip_witness :
    (vtpc_write noFaults stOneOpen 0 [7, 3]).fst
      = ((List.length [7, 3] : Nat) : Int) ∧
    ∃ st4, vtpc_lseek (vtpc_write noFaults stOneOpen 0 [7, 3]).snd 0 0
        SEEK_SET = (0, st4) ∧
      ∃ st5, vtpc_read noFaults st4 0 (List.length [7, 3])
        = (((List.length [7, 3] : Nat) : Int), [7, 3], st5) :=
  write_seek_read_round_trip noFaults stOneOpen 0 [7, 3] 0 (by decide)
    (by decide) (by decide) (by decide) rfl rfl rfl rfl GoodF_stOneOpen

theorem rangeMap_getD (g : Nat → Nat) (n k : Nat) (hk : k < n) :
    ((List.range n).map g).getD k 0 = g k := by
  rw [List.getD_eq_getElem?_getD, List.getElem?_map, List.getElem?_range hk]
  rfl

/-- C6: after writing a full block `bs1` at a block-aligned cursor, then —
from any later state that still holds the handle with its cursor moved
mid-block and the same logical file content (covering in particular the case
that the block has been evicted in between, so that the second write misses
and repopulates by read-modify-write) — writing a shorter run `bs2` inside
that block, seeking back to the block start and reading the full block
returns `bs2` inside the run and the original bytes of `bs1` outside it. -/
theorem partial_write_preserves_block (env : IOEnv) (st stMid : SysState)
    (fd : Int) (bs1 bs2 : List Nat) (pos0 d s sMid : Nat)
    (hfd0 : 0 ≤ fd) (hfdM : fd < (MAX_OPEN_FILES : Int))
    (hosfd : (st.openFiles fd.toNat).os_fd ≠ -1)
    (hfnn : 0 ≤ (st.openFiles fd.toNat).os_fd)
    (hwf : env.writesFail (st.openFiles fd.toNat).os_fd.toNat = false)
    (hrf : env.readsFail (st.openFiles fd.toNat).os_fd.toNat = false)
    (hcur : (st.openFiles fd.toNat).current_offset = pos0)
    (hal : pos0 % BLOCK_SIZE = 0)
    (hb1 : bs1.length = BLOCK_SIZE)
    (hs : (st.openFiles fd.toNat).file_size = s)
    (hg : GoodF st (st.openFiles fd.toNat).os_fd s)
    (hd1 : 1 ≤ d) (hd2 : d + bs2.length ≤ BLOCK_SIZE)
    (hmid_os : (stMid.openFiles fd.toNat).os_fd
      = (st.openFiles fd.toNat).os_fd)
    (hmid_cur : (stMid.openFiles fd.toNat).current_offset = pos0 + d)
    (hmid_size : (stMid.openFiles fd.toNat).file_size = sMid)
    (hmid_big : pos0 + BLOCK_SIZE ≤ sMid)
    (hmid_good : GoodF stMid (st.openFiles fd.toNat).os_fd sMid)
    (hmid_lb : ∀ o, logicalByte stMid (st.openFiles fd.toNat).os_fd o
      = logicalByte (vtpc_write env st fd bs1).snd
          (st.openFiles fd.toNat).os_fd o) :
    (vtpc_write env st fd bs1).fst = (bs1.length : Int) ∧
    (vtpc_write env stMid fd bs2).fst = (bs2.length : Int) ∧
    ∃ st4, vtpc_lseek (vtpc_write env stMid fd bs2).snd fd (pos0 : Int)
        SEEK_SET = ((pos0 : Int), st4) ∧
      ∃ bytes st5, vtpc_read env st4 fd BLOCK_SIZE
        = ((BLOCK_SIZE : Int), bytes, st5) ∧
        bytes.length = BLOCK_SIZE ∧
        (∀ k, k < BLOCK_SIZE → bytes.getD k 0
          = if d ≤ k ∧ k < d + bs2.length then bs2.getD (k - d) 0
            else bs1.getD k 0) := by
  obtain ⟨st3, heq3, hg3, hval3, hout3, hof3, herr3⟩ :=
    vtpc_write_correct env st fd bs1 s hfd0 hfdM hosfd hfnn hwf hrf hs hg
  simp only [hcur] at hg3 hval3 hout3 hof3
  rw [heq3] at hmid_lb
  dsimp only at hmid_lb
  obtain ⟨st3b, heq3b, hg3b, hval3b, hout3b, hof3b, herr3b⟩ :=
    vtpc_write_correct env stMid fd bs2 sMid hfd0 hfdM
      (by rw [hmid_os]; exact hosfd)
      (by rw [hmid_os]; exact hfnn)
      (by rw [hmid_os]; exact hwf)
      (by rw [hmid_os]; exact hrf)
      hmid_size
      (by rw [hmid_os]; exact hmid_good)
  simp only [hmid_cur, hmid_os] at hg3b hval3b hout3b hof3b
  have hsfin : max sMid (pos0 + d + bs2.length) = sMid := by
    omega
  rw [hsfin] at hg3b hof3b
  have hctx3b : st3b.openFiles fd.toNat
      = ({ os_fd := (st.openFiles fd.toNat).os_fd,
           current_offset := pos0 + d + bs2.length,
           file_size := sMid,
           flags := (stMid.openFiles fd.toNat).flags }) := by
    rw [hof3b, updF_self]
  have hosfd3b : (st3b.openFiles fd.toNat).os_fd ≠ -1 := by
    rw [hctx3b]
    exact hosfd
  have hlseek := vtpc_lseek_set_ok st3b fd (pos0 : Int) hfd0 hfdM hosfd3b
    (by omega)
  have hctx4 : (({ st3b with
      openFiles := updF st3b.openFiles fd.toNat
        ({ st3b.openFiles fd.toNat with
          current_offset := (pos0 : Int).toNat }) }).openFiles fd.toNat)
      = ({ os_fd := (st.openFiles fd.toNat).os_fd,
           current_offset := pos0,
           file_size := sMid,
           flags := (stMid.openFiles fd.toNat).flags }) := by
    dsimp only
    rw [updF_self, hctx3b]
    rfl
  have hq : (({ st3b with
      openFiles := updF st3b.openFiles fd.toNat
        ({ st3b.openFiles fd.toNat with
          current_offset := (pos0 : Int).toNat }) }).openFiles
        fd.toNat).os_fd
      = (st.openFiles fd.toNat).os_fd := by
    rw [hctx4]
  have hwl : ((List.range BLOCK_SIZE).map
      (fun k => if d ≤ k ∧ k < d + bs2.length then bs2.getD (k - d) 0
        else bs1.getD k 0)).length = BLOCK_SIZE := by
    simp
  obtain ⟨st5, hread⟩ := read_back env
    ({ st3b with
      openFiles := updF st3b.openFiles fd.toNat
        ({ st3b.openFiles fd.toNat with
          current_offset := (pos0 : Int).toNat }) })
    fd
    ((List.range BLOCK_SIZE).map
      (fun k => if d ≤ k ∧ k < d + bs2.length then bs2.getD (k - d) 0
        else bs1.getD k 0))
    sMid pos0 hfd0 hfdM
    (by rw [hq]; exact hosfd)
    (by rw [hq]; exact hfnn)
    (by rw [hq]; exact hwf)
    (by rw [hq]; exact hrf)
    (by rw [hctx4])
    (by rw [hctx4])
    (by rw [hq]; exact GoodF_cache_files rfl rfl hg3b)
    (by rw [hwl]; omega)
    (by
      intro k hk
      rw [hwl] at hk
      rw [hq]
      have hlc := @logicalByte_cache_files st3b
        ({ st3b with
          openFiles := updF st3b.openFiles fd.toNat
            ({ st3b.openFiles fd.toNat with
              current_offset := (pos0 : Int).toNat }) }) rfl rfl
      rw [hlc, rangeMap_getD _ _ _ hk]
      by_cases hkin : d ≤ k ∧ k < d + bs2.length
      · rw [if_pos hkin]
        have hv := hval3b (k - d) (by omega)
        have hoeq : pos0 + d + (k - d) = pos0 + k := by
          omega
        rw [hoeq] at hv
        exact hv
      · rw [if_neg hkin]
        have hout := hout3b (pos0 + k) (by omega)
        rw [hout, hmid_lb]
        exact hval3 k (by omega))
  rw [heq3, heq3b]
  refine ⟨rfl, rfl, _, hlseek, ?_⟩
  rw [hwl] at hread
  exact ⟨_, st5, hread, hwl, fun k hk => rangeMap_getD _ _ _ hk⟩

/-- The concrete intermediate state of the C6 witness: a full block of 5s
written at offset 0 on the one-handle state, then the cursor moved to 100. -/
def c6Mid : SysState :=
  (vtpc_lseek (vtpc_write noFaults stOneOpen 0
    (List.replicate BLOCK_SIZE 5)).snd 0 100 SEEK_SET).snd

/-- Witness for C6: full block of 5s at offset 0, then the byte 9 written at
offset 100, then a seek to 0 and a full-block read: byte 100 reads 9, all
other bytes read 5. -/
theorem partial_write_preserves_block_witness :
    (vtpc_write noFaults stOneOpen 0 (List.replicate BLOCK_SIZE 5)).fst
      = ((List.replicate BLOCK_SIZE 5).length : Int) ∧
    (vtpc_write noFaults c6Mid 0 [9]).fst = (List.length [9] : Int) ∧
    ∃ st4, vtpc_lseek (vtpc_write noFaults c6Mid 0 [9]).snd 0
        ((0 : Nat) : Int) SEEK_SET = (((0 : Nat) : Int), st4) ∧
      ∃ bytes st5, vtpc_read noFaults st4 0 BLOCK_SIZE
        = ((BLOCK_SIZE : Int), bytes, st5) ∧
        bytes.length = BLOCK_SIZE ∧
        (∀ k, k < BLOCK_SIZE → bytes.getD k 0
          = if 100 ≤ k ∧ k < 100 + List.length [9] then
              List.getD [9] (k - 100) 0
            else (List.replicate BLOCK_SIZE 5).getD k 0) := by
  have hlen1 : (List.replicate BLOCK_SIZE 5).length = BLOCK_SIZE := by
    simp
  obtain ⟨st3, heq3, hg3, hval3, hout3, hof3, herr3⟩ :=
    vtpc_write_correct noFaults stOneOpen 0 (List.replicate BLOCK_SIZE 5) 0
      (by decide) (by decide) (by decide) (by decide) rfl rfl rfl
      GoodF_stOneOpen
  simp only [hlen1] at hg3 hof3
  have hctx3 : st3.openFiles (0 : Int).toNat
      = ({ stOneOpen.openFiles (0 : Int).toNat with
          current_offset :=
            (stOneOpen.openFiles (0 : Int).toNat).current_offset
              + BLOCK_SIZE,
          file_size := max 0
            ((stOneOpen.openFiles (0 : Int).toNat).current_offset
              + BLOCK_SIZE) }) := by
    rw [hof3, updF_self]
  have hosfd3 : (st3.openFiles (0 : Int).toNat).os_fd ≠ -1 := by
    rw [hctx3]
    decide
  have hlsk := vtpc_lseek_set_ok st3 0 100 (by decide) (by decide) hosfd3
    (by decide)
  have hc6 : c6Mid = ({ st3 with
      openFiles := updF st3.openFiles (0 : Int).toNat
        ({ st3.openFiles (0 : Int).toNat with
          current_offset := (100 : Int).toNat }) }) := by
    unfold c6Mid
    rw [heq3]
    dsimp only
    rw [hlsk]
  have hctx6 : c6Mid.openFiles (0 : Int).toNat
      = ({ st3.openFiles (0 : Int).toNat with
          current_offset := (100 : Int).toNat }) := by
    rw [hc6]
    dsimp only
    rw [updF_self]
  have hmos : (c6Mid.openFiles (0 : Int).toNat).os_fd
      = (stOneOpen.openFiles (0 : Int).toNat).os_fd := by
    rw [hctx6]
    dsimp only
    rw [hctx3]
  have hmcur : (c6Mid.openFiles (0 : Int).toNat).current_offset
      = 0 + 100 := by
    rw [hctx6]
    dsimp only
    decide
  have hmsize : (c6Mid.openFiles (0 : Int).toNat).file_size
      = BLOCK_SIZE := by
    rw [hctx6]
    dsimp only
    rw [hctx3]
    dsimp only
    decide
  exact partial_write_preserves_block noFaults stOneOpen c6Mid 0
    (List.replicate BLOCK_SIZE 5) [9] 0 100 0 BLOCK_SIZE
    (by decide) (by decide) (by decide) (by decide) rfl rfl rfl rfl
    hlen1 rfl GoodF_stOneOpen (by decide) (by decide)
    hmos
    hmcur
    hmsize
    (by decide)
    (by
      rw [hc6]
      refine GoodF_cache_files rfl rfl ?_
      have hmx : max 0 ((stOneOpen.openFiles (0 : Int).toNat).current_offset
          + BLOCK_SIZE) = BLOCK_SIZE := by
        decide
      rw [← hmx]
      exact hg3)
    (by
      intro o
      rw [hc6, heq3]
      dsimp only
      exact logicalByte_cache_files rfl rfl _ o)
